import Mathlib

/-!
Verification of the O-Lang kernel (parser + runtime) against its
natural-language specification.

The JavaScript sources are shallowly embedded as executable Lean
definitions:

* `parse1` embeds the `src/parser.js` revision that recognises the four
  English arithmetic sentence forms (file `unnamed/part_001`);
* `parse2` embeds the current parser `parseWorkflowLines`
  (file `unnamed/part_002`);
* `RtState`, `runResolvers`, `executeStep`, `executeWorkflow`,
  `evaluateCondition`, `evaluateMath` embed the current runtime
  (file `unnamed/part_004`).

Modelling conventions, used throughout:

* JavaScript numbers are idealised as rationals (`Rat`); `NaN` is the
  dedicated constructor `Value.nan`.  IEEE-754 rounding and the
  infinities are outside the model (division by zero is conflated with
  `NaN`; no claim touches it).
* `undefined` is modelled as `Option.none` at the points where the code
  can observe it; JavaScript `null` is the distinct constructor
  `Value.null`.
* Wall-clock timestamps (attached by the code to warnings and
  disallowed-resolver log entries) are elided: a warning is its message
  string, a log entry is the pair (resolver name, step text).
* Regular-expression matching is reimplemented function by function,
  including greedy/lazy capture behaviour, restricted to the ASCII
  character classes the sources use.
-/

namespace OLang

/-! ## Characters and whitespace (JavaScript `\s`, `trim`) -/

/-- The ASCII part of the JavaScript `\s` class (space, tab, LF, VT, FF, CR). -/
def jsWsChar (c : Char) : Bool :=
  c = ' ' || c = '\t' || c = '\n' || c = '\r' || c = Char.ofNat 11 || c = Char.ofNat 12

def jsTrimLeftList (cs : List Char) : List Char := cs.dropWhile jsWsChar

def jsTrimList (cs : List Char) : List Char :=
  ((cs.dropWhile jsWsChar).reverse.dropWhile jsWsChar).reverse

/-- JavaScript `String.prototype.trim` (ASCII whitespace). -/
def jsTrim (s : String) : String := (jsTrimList s.data).asString

/-- Case-insensitive matching uses ASCII lowercasing, as the sources only
use `/i` on ASCII patterns. -/
def lowerChar (c : Char) : Char := c.toLower

/-- Strip a literal pattern case-insensitively from the front of the input,
returning the rest on success. -/
def stripPrefixCI : List Char → List Char → Option (List Char)
  | [], cs => some cs
  | _ :: _, [] => none
  | p :: ps, c :: cs => if lowerChar c = lowerChar p then stripPrefixCI ps cs else none

/-- Strip one-or-more whitespace (`\s+`), maximally. -/
def stripWs1 : List Char → Option (List Char)
  | [] => none
  | c :: cs => if jsWsChar c then some (cs.dropWhile jsWsChar) else none

/-- Strip zero-or-more whitespace (`\s*`), maximally. -/
def stripWs0 (cs : List Char) : List Char := cs.dropWhile jsWsChar

/-- JavaScript `\w` (word character). -/
def wordChar (c : Char) : Bool :=
  (('a' ≤ c && c ≤ 'z') || ('A' ≤ c && c ≤ 'Z') || ('0' ≤ c && c ≤ '9') || c = '_')

/-- The JavaScript `.` class (anything but a line terminator; the
Unicode separators are outside the model). -/
def dotChar (c : Char) : Bool := c ≠ '\n' && c ≠ '\r'

/-- `/^[A-Za-z]/` head test used by the capability-block scanner. -/
def startsWithLetter (s : String) : Bool :=
  match s.data with
  | [] => false
  | c :: _ => ('A' ≤ c && c ≤ 'Z') || ('a' ≤ c && c ≤ 'z')

/-! ## Decimal digit strings and their round trip -/

/-- One decimal digit as a character. -/
def dChar : Nat → Char
  | 0 => '0' | 1 => '1' | 2 => '2' | 3 => '3' | 4 => '4'
  | 5 => '5' | 6 => '6' | 7 => '7' | 8 => '8' | 9 => '9'
  | _ => '*'

/-- Little-endian decimal digits, fuel-based (`fuel ≥ n` always suffices
since the argument shrinks every step; kept structural so the kernel can
evaluate concrete instances). -/
def decDigitsRev : Nat → Nat → List Nat
  | 0, _ => []
  | fuel + 1, n => if n = 0 then [] else n % 10 :: decDigitsRev fuel (n / 10)

def natToDecChars (n : Nat) : List Char :=
  if n = 0 then ['0'] else ((decDigitsRev n n).reverse.map dChar)

def natToDecString (n : Nat) : String := (natToDecChars n).asString

def intToDecString (i : Int) : String :=
  if i < 0 then "-" ++ natToDecString i.natAbs else natToDecString i.natAbs

/-- Value of a list of digit characters (most significant first); no
validity check. -/
def digitCharsVal (cs : List Char) : Nat :=
  cs.foldl (fun a c => a * 10 + (c.toNat - 48)) 0

/-- Parse a non-empty all-digit character list. -/
def parseNatChars (cs : List Char) : Option Nat :=
  if cs ≠ [] ∧ cs.all Char.isDigit then some (digitCharsVal cs) else none

theorem dChar_toNat {d : Nat} (h : d < 10) : (dChar d).toNat = 48 + d := by
  interval_cases d <;> decide

theorem dChar_isDigit {d : Nat} (h : d < 10) : (dChar d).isDigit = true := by
  interval_cases d <;> decide

theorem digitCharsVal_map_dChar (L : List Nat) (a : Nat) (h : ∀ d ∈ L, d < 10) :
    (L.map dChar).foldl (fun a c => a * 10 + (c.toNat - 48)) a =
      L.foldl (fun a d => a * 10 + d) a := by
  induction L generalizing a with
  | nil => rfl
  | cons d L ih =>
    simp only [List.map_cons, List.foldl_cons]
    rw [dChar_toNat (h d (by simp))]
    have : 48 + d - 48 = d := by omega
    rw [this]
    exact ih _ (fun x hx => h x (by simp [hx]))

theorem revFoldl_eq_ofDigits (L : List Nat) :
    L.reverse.foldl (fun a d => a * 10 + d) 0 = Nat.ofDigits 10 L := by
  induction L with
  | nil => rfl
  | cons d L ih =>
    rw [List.reverse_cons, List.foldl_append]
    simp only [List.foldl_cons, List.foldl_nil]
    rw [ih, Nat.ofDigits_cons]
    ring

theorem decDigitsRev_eq_digits (fuel n : Nat) (h : n ≤ fuel) :
    decDigitsRev fuel n = Nat.digits 10 n := by
  induction fuel generalizing n with
  | zero =>
    have : n = 0 := Nat.le_zero.mp h
    subst this; simp [decDigitsRev]
  | succ fuel ih =>
    unfold decDigitsRev
    by_cases h0 : n = 0
    · subst h0; simp
    · rw [if_neg h0, ih (n / 10) (by omega)]
      rw [Nat.digits_def' (by norm_num : 1 < 10) (Nat.pos_of_ne_zero h0)]

theorem natToDecChars_eq (n : Nat) :
    natToDecChars n = if n = 0 then ['0'] else ((Nat.digits 10 n).reverse.map dChar) := by
  unfold natToDecChars
  rw [decDigitsRev_eq_digits n n le_rfl]

theorem parseNatChars_natToDecChars (n : Nat) :
    parseNatChars (natToDecChars n) = some n := by
  rw [natToDecChars_eq]
  by_cases h0 : n = 0
  · subst h0; decide
  · have hne : Nat.digits 10 n ≠ [] := Nat.digits_ne_nil_iff_ne_zero.mpr h0
    have hlt : ∀ d ∈ Nat.digits 10 n, d < 10 := fun d hd =>
      Nat.digits_lt_base (by norm_num) hd
    unfold parseNatChars
    rw [if_neg h0]
    have hne2 : ((Nat.digits 10 n).reverse.map dChar) ≠ [] := by
      simp [hne]
    have hall : ((Nat.digits 10 n).reverse.map dChar).all Char.isDigit = true := by
      rw [List.all_eq_true]
      intro c hc
      rw [List.mem_map] at hc
      obtain ⟨d, hd, rfl⟩ := hc
      exact dChar_isDigit (hlt d (List.mem_reverse.mp hd))
    rw [if_pos ⟨hne2, hall⟩]
    unfold digitCharsVal
    rw [digitCharsVal_map_dChar _ _ (fun d hd => hlt d (List.mem_reverse.mp hd)),
      revFoldl_eq_ofDigits, Nat.ofDigits_digits]

theorem digitCharsVal_natToDecChars (n : Nat) : digitCharsVal (natToDecChars n) = n := by
  have h := parseNatChars_natToDecChars n
  unfold parseNatChars at h
  by_cases hsplit : natToDecChars n ≠ [] ∧ (natToDecChars n).all Char.isDigit
  · rw [if_pos hsplit] at h
    exact Option.some.inj h
  · rw [if_neg hsplit] at h
    exact absurd h (by simp)

theorem natToDecChars_all_isDigit (n : Nat) : (natToDecChars n).all Char.isDigit = true := by
  have h := parseNatChars_natToDecChars n
  unfold parseNatChars at h
  by_cases hsplit : natToDecChars n ≠ [] ∧ (natToDecChars n).all Char.isDigit
  · exact hsplit.2
  · rw [if_neg hsplit] at h
    exact absurd h (by simp)

theorem natToDecChars_ne_nil (n : Nat) : natToDecChars n ≠ [] := by
  have h := parseNatChars_natToDecChars n
  unfold parseNatChars at h
  by_cases hsplit : natToDecChars n ≠ [] ∧ (natToDecChars n).all Char.isDigit
  · exact hsplit.1
  · rw [if_neg hsplit] at h
    exact absurd h (by simp)

/-! ## JavaScript values

`Option Value` is used wherever the code can observe `undefined`
(`none` = `undefined`). -/

inductive Value where
  | num (q : Rat)
  | nan
  | str (s : String)
  | bool (b : Bool)
  | null
  | obj (fields : List (String × Value))

mutual
/-- Structural equality test for values (used only to decide equality
of concrete results in the theorems below; the runtime itself never
compares whole values this way). -/
def valueBeq : Value → Value → Bool
  | .num a, .num b => a == b
  | .nan, .nan => true
  | .str a, .str b => a == b
  | .bool a, .bool b => a == b
  | .null, .null => true
  | .obj fa, .obj fb => fieldsBeq fa fb
  | _, _ => false

def fieldsBeq : List (String × Value) → List (String × Value) → Bool
  | [], [] => true
  | (k1, v1) :: r1, (k2, v2) :: r2 => k1 == k2 && valueBeq v1 v2 && fieldsBeq r1 r2
  | _, _ => false
end

mutual
theorem valueBeq_iff : ∀ a b : Value, valueBeq a b = true ↔ a = b
  | .num a, .num b => by simp [valueBeq]
  | .nan, .nan => by simp [valueBeq]
  | .str a, .str b => by simp [valueBeq]
  | .bool a, .bool b => by simp [valueBeq]
  | .null, .null => by simp [valueBeq]
  | .obj fa, .obj fb => by
    rw [show valueBeq (.obj fa) (.obj fb) = fieldsBeq fa fb from rfl]
    rw [fieldsBeq_iff fa fb]
    simp
  | .num a, .nan | .num a, .str b | .num a, .bool b | .num a, .null | .num a, .obj fb
  | .nan, .num b | .nan, .str b | .nan, .bool b | .nan, .null | .nan, .obj fb
  | .str a, .num b | .str a, .nan | .str a, .bool b | .str a, .null | .str a, .obj fb
  | .bool a, .num b | .bool a, .nan | .bool a, .str b | .bool a, .null | .bool a, .obj fb
  | .null, .num b | .null, .nan | .null, .str b | .null, .bool b | .null, .obj fb
  | .obj fa, .num b | .obj fa, .nan | .obj fa, .str b | .obj fa, .bool b | .obj fa, .null =>
    by simp [valueBeq]

theorem fieldsBeq_iff : ∀ a b : List (String × Value), fieldsBeq a b = true ↔ a = b
  | [], [] => by simp [fieldsBeq]
  | [], _ :: _ => by simp [fieldsBeq]
  | _ :: _, [] => by simp [fieldsBeq]
  | (k1, v1) :: r1, (k2, v2) :: r2 => by
    rw [show fieldsBeq ((k1, v1) :: r1) ((k2, v2) :: r2) =
          (k1 == k2 && valueBeq v1 v2 && fieldsBeq r1 r2) from rfl]
    rw [Bool.and_eq_true, Bool.and_eq_true, valueBeq_iff v1 v2, fieldsBeq_iff r1 r2]
    simp [and_assoc]
end

instance : DecidableEq Value := fun a b => decidable_of_iff _ (valueBeq_iff a b)

instance {ε α : Type} [DecidableEq ε] [DecidableEq α] : DecidableEq (Except ε α) :=
  fun a b =>
    match a, b with
    | .error e, .error f =>
      if h : e = f then .isTrue (by rw [h])
      else .isFalse (fun hh => h (Except.error.inj hh))
    | .error _, .ok _ => .isFalse (fun hh => Except.noConfusion hh)
    | .ok _, .error _ => .isFalse (fun hh => Except.noConfusion hh)
    | .ok x, .ok y =>
      if h : x = y then .isTrue (by rw [h])
      else .isFalse (fun hh => h (Except.ok.inj hh))

/-- Number → string (`String(value)`), exact for integral rationals; for
non-integral values the finite-decimal expansion is printed to at most 17
fractional digits (JavaScript prints the shortest float round trip; only
integral values reach the theorems below). -/
def fracDigitsAux : Nat → Rat → List Nat
  | 0, _ => []
  | fuel + 1, q =>
    if q = 0 then []
    else
      let q10 := q * 10
      let d := q10.floor.toNat
      d :: fracDigitsAux fuel (q10 - d)

def ratToString (q : Rat) : String :=
  if q.den = 1 then intToDecString q.num
  else
    let sign := if q < 0 then "-" else ""
    let a := |q|
    let ip := a.floor.toNat
    let ds := fracDigitsAux 17 (a - ip)
    sign ++ natToDecString ip ++
      (if ds = [] then "" else "." ++ (ds.map OLang.dChar).asString)

/-- `String(v)` for a defined value. -/
def jsValToString : Value → String
  | .num q => ratToString q
  | .nan => "NaN"
  | .str s => s
  | .bool b => if b then "true" else "false"
  | .null => "null"
  | .obj _ => "[object Object]"

/-- `String(v)` including `undefined`. -/
def jsOptToString : Option Value → String
  | none => "undefined"
  | some v => jsValToString v

/-! ### Decimal literal scanning (shared by `Number`, `parseFloat` and the
expression evaluator; hexadecimal and exponent notations are outside the
model, no source-reachable input uses them). -/

/-- Scan an unsigned decimal `digits[.digits]` / `.digits` prefix; returns
the value and the rest, requiring at least one digit in total. -/
def scanDecimal (cs : List Char) : Option (Rat × List Char) :=
  let d1 := cs.takeWhile Char.isDigit
  let r1 := cs.dropWhile Char.isDigit
  match r1 with
  | '.' :: r2 =>
    let d2 := r2.takeWhile Char.isDigit
    let r3 := r2.dropWhile Char.isDigit
    if d1 = [] ∧ d2 = [] then none
    else some (((digitCharsVal d1 : Rat) +
      (digitCharsVal d2 : Rat) / ((10 : Rat) ^ d2.length)), r3)
  | _ =>
    if d1 = [] then none else some ((digitCharsVal d1 : Rat), r1)

/-- Optional sign, then a decimal. -/
def scanSignedDecimal (cs : List Char) : Option (Rat × List Char) :=
  match cs with
  | '-' :: rest => (scanDecimal rest).map (fun p => (-p.1, p.2))
  | '+' :: rest => scanDecimal rest
  | _ => scanDecimal cs

/-- `Number(s)` on strings (`none` = `NaN`); whole-string match, empty or
all-whitespace string is `0`. -/
def jsStringToNumber (s : String) : Option Rat :=
  let cs := jsTrimList s.data
  if cs = [] then some 0
  else
    match scanSignedDecimal cs with
    | some (q, []) => some q
    | _ => none

/-- `parseFloat(s)` (`none` = `NaN`): leading whitespace skipped, longest
numeric prefix. -/
def jsParseFloat (s : String) : Option Rat :=
  match scanSignedDecimal (jsTrimLeftList s.data) with
  | some (q, _) => some q
  | none => none

/-- `ToNumber(v)` for a possibly-undefined value (`none` = `NaN`).
A plain object coerces through `"[object Object]"`, which is `NaN`. -/
def jsToNumber : Option Value → Option Rat
  | none => none
  | some (.num q) => some q
  | some .nan => none
  | some (.str s) => jsStringToNumber s
  | some (.bool b) => some (if b then 1 else 0)
  | some .null => some 0
  | some (.obj _) => none

/-- JavaScript truthiness. -/
def jsTruthy : Option Value → Bool
  | none => false
  | some (.num q) => decide (q ≠ 0)
  | some .nan => false
  | some (.str s) => decide (s ≠ "")
  | some (.bool b) => b
  | some .null => false
  | some (.obj _) => true

/-- `ToPrimitive` as used by `+` and the relational operators: plain
objects become `"[object Object]"`, everything else is already primitive. -/
def jsToPrim : Option Value → Option Value
  | some (.obj _) => some (.str "[object Object]")
  | v => v

def isStrPrim : Option Value → Bool
  | some (.str _) => true
  | _ => false

/-- JavaScript `+`. -/
def jsAdd (a b : Option Value) : Value :=
  let pa := jsToPrim a
  let pb := jsToPrim b
  if isStrPrim pa || isStrPrim pb then
    .str (jsOptToString pa ++ jsOptToString pb)
  else
    match jsToNumber pa, jsToNumber pb with
    | some x, some y => .num (x + y)
    | _, _ => .nan

/-- Numeric binary operator skeleton (`-`, `*`). -/
def jsNumBin (f : Rat → Rat → Rat) (a b : Option Value) : Value :=
  match jsToNumber a, jsToNumber b with
  | some x, some y => .num (f x y)
  | _, _ => .nan

/-- JavaScript `/`; division by zero yields an infinity in JavaScript,
conflated with `NaN` here (unreachable from the claims). -/
def jsDiv (a b : Option Value) : Value :=
  match jsToNumber a, jsToNumber b with
  | some x, some y => if y = 0 then .nan else .num (x / y)
  | _, _ => .nan

/-- JavaScript `===`.  Two distinct object literals are never reference
equal, so `obj`/`obj` is `false`. -/
def jsStrictEq (a b : Option Value) : Bool :=
  match a, b with
  | none, none => true
  | some (.num x), some (.num y) => decide (x = y)
  | some (.str x), some (.str y) => decide (x = y)
  | some (.bool x), some (.bool y) => decide (x = y)
  | some .null, some .null => true
  | _, _ => false

/-- JavaScript `<` / `>` (the flag picks `<`); string/string compares
lexicographically, otherwise numerically with `NaN` incomparable. -/
def jsLess (a b : Option Value) : Bool :=
  let pa := jsToPrim a
  let pb := jsToPrim b
  match pa, pb with
  | some (.str x), some (.str y) => decide (x < y)
  | _, _ =>
    match jsToNumber pa, jsToNumber pb with
    | some x, some y => decide (x < y)
    | _, _ => false

/-- Loose equality `v == lit` against a string literal, the only shape the
sources use (`evaluateCondition`'s `equals` form). -/
def jsLooseEqStr (v : Option Value) (lit : String) : Bool :=
  match v with
  | none => false
  | some .null => false
  | some .nan => false
  | some (.num q) =>
    match jsStringToNumber lit with
    | some r => decide (q = r)
    | none => false
  | some (.str s) => decide (s = lit)
  | some (.bool b) =>
    match jsStringToNumber lit with
    | some r => decide ((if b then (1 : Rat) else 0) = r)
    | none => false
  | some (.obj _) => decide ("[object Object]" = lit)

/-! ## Execution context (`this.context`) and `getNested` -/

/-- The mutable execution context: an insertion-ordered map; a key bound
to `none` models a property assigned `undefined`. -/
abbrev Ctx := List (String × Option Value)

/-- Property assignment: overwrite in place, else append. -/
def ctxSet : Ctx → String → Option Value → Ctx
  | [], k, v => [(k, v)]
  | p :: rest, k, v => if p.1 = k then (k, v) :: rest else p :: ctxSet rest k v

/-- Property read: `some w` when the key is present bound to `w`
(`w = none` models a property assigned `undefined`). -/
def ctxGet : Ctx → String → Option (Option Value)
  | [], _ => none
  | p :: rest, k => if p.1 = k then some p.2 else ctxGet rest k

theorem ctxGet_set_self (ctx : Ctx) (k : String) (v : Option Value) :
    ctxGet (ctxSet ctx k v) k = some v := by
  induction ctx with
  | nil => simp [ctxSet, ctxGet]
  | cons p rest ih =>
    by_cases h : p.1 = k
    · simp [ctxSet, ctxGet, h]
    · simp [ctxSet, ctxGet, h, ih]

theorem ctxGet_set_ne (ctx : Ctx) (k : String) (v : Option Value) (q : String)
    (h : q ≠ k) : ctxGet (ctxSet ctx k v) q = ctxGet ctx q := by
  induction ctx with
  | nil =>
    simp only [ctxSet, ctxGet]
    rw [if_neg (fun hh => h hh.symm)]
  | cons p rest ih =>
    by_cases hp : p.1 = k
    · subst hp
      simp only [ctxSet, if_pos rfl, ctxGet]
      rw [if_neg (fun hh => h hh.symm), if_neg (fun hh => h hh.symm)]
    · simp only [ctxSet, if_neg hp, ctxGet]
      by_cases hq : p.1 = q
      · rw [if_pos hq, if_pos hq]
      · rw [if_neg hq, if_neg hq]
        exact ih

def objFind (fields : List (String × Value)) (k : String) : Option Value :=
  match fields.find? (fun p => p.1 = k) with
  | some p => some p.2
  | none => none

/-- The inner steps of `getNested`'s reduce: property access on
non-objects (including primitives) is modelled as `undefined`. -/
def getNestedGo : Option Value → List String → Option Value
  | v, [] => v
  | some (.obj fields), p :: rest => getNestedGo (objFind fields p) rest
  | _, _ :: _ => none

/-- `String.prototype.split` with a single-character separator, as a
structural recursion over the character list (so concrete instances
evaluate inside the kernel). -/
def splitCharsOn (sep : Char) : List Char → List (List Char)
  | [] => [[]]
  | c :: cs =>
    if c = sep then [] :: splitCharsOn sep cs
    else
      match splitCharsOn sep cs with
      | g :: gs => (c :: g) :: gs
      | [] => [[c]]

def jsSplit (s : String) (sep : Char) : List String :=
  (splitCharsOn sep s.data).map List.asString

/-- `getNested(obj, path)` from the runtime: empty path is `undefined`;
otherwise the dot-split path is walked, treating any `undefined` (or a
property stored as `undefined`) as a dead end. -/
def getNested (ctx : Ctx) (path : String) : Option Value :=
  if path = "" then none
  else
    match jsSplit path '.' with
    | [] => none
    | p :: rest =>
      match ctxGet ctx p with
      | some (some v) => getNestedGo (some v) rest
      | _ => getNestedGo none rest

/-! ## Regex building blocks

Each source regular expression is re-implemented as a dedicated matcher,
reproducing greedy/lazy capture order where it matters. -/

/-- Case-sensitive literal prefix strip. -/
def stripPrefixCS : List Char → List Char → Option (List Char)
  | [], cs => some cs
  | _ :: _, [] => none
  | p :: ps, c :: cs => if c = p then stripPrefixCS ps cs else none

/-- `String.prototype.startsWith` (reimplemented over character lists so
that concrete runs reduce in the kernel). -/
def jsStartsWith (s pre : String) : Bool := (stripPrefixCS pre.data s.data).isSome

/-- `String.prototype.endsWith`. -/
def jsEndsWith (s suf : String) : Bool :=
  (stripPrefixCS suf.data.reverse s.data.reverse).isSome

/-- `s.slice(n)` on characters. -/
def strDrop (s : String) (n : Nat) : String := (s.data.drop n).asString

/-- Drop `n` characters from the end. -/
def strDropRight (s : String) (n : Nat) : String :=
  (s.data.take (s.data.length - n)).asString

/-- All decompositions `cs = g ++ '}' :: rest`, ordered by ascending
length of `g` (lazy order); reverse for greedy order. -/
def braceSplits : List Char → List (List Char × List Char)
  | [] => []
  | c :: rest =>
    let tails := (braceSplits rest).map (fun p => (c :: p.1, p.2))
    if c = '}' then ([], rest) :: tails else tails

def firstSome {α β : Type} (f : α → Option β) : List α → Option β
  | [] => none
  | a :: as_ => match f a with | some b => some b | none => firstSome f as_

/-! ### `evaluateCondition` regexes (case-sensitive) -/

/-- Tail of `/^\{(.+)\}\s+equals\s+"(.*)"$/` after the closing brace:
returns the quoted literal (greedy `(.*)`, so everything between the
first quote and the final character, which must be a quote). -/
def condEqTail (cs : List Char) : Option String :=
  (stripWs1 cs).bind fun r1 =>
  (stripPrefixCS "equals".data r1).bind fun r2 =>
  (stripWs1 r2).bind fun r3 =>
  match r3 with
  | '"' :: rest =>
    if rest ≠ [] ∧ rest.getLast? = some '"' ∧ rest.dropLast.all dotChar then
      some rest.dropLast.asString
    else none
  | _ => none

/-- `/^\{(.+)\}\s+equals\s+"(.*)"$/`: group 1 is greedy, so the rightmost
viable closing brace wins. -/
def matchCondEq (s : String) : Option (String × String) :=
  match s.data with
  | '{' :: rest =>
    firstSome
      (fun p =>
        if p.1 = [] || !p.1.all dotChar then none
        else (condEqTail p.2).map fun lit => (p.1.asString, lit))
      (braceSplits rest).reverse
  | _ => none

/-- Numeral `(\d+\.?\d*)$` anchored at the end; its `parseFloat` value. -/
def numLitTail (cs : List Char) : Option Rat :=
  let d1 := cs.takeWhile Char.isDigit
  let r1 := cs.dropWhile Char.isDigit
  if d1 = [] then none
  else
    match r1 with
    | [] => some (digitCharsVal d1 : Rat)
    | '.' :: r2 =>
      if r2.all Char.isDigit then
        some ((digitCharsVal d1 : Rat) + (digitCharsVal r2 : Rat) / ((10 : Rat) ^ r2.length))
      else none
    | _ => none

/-- Tail of the `greater than` / `less than` comparison forms after
the closing brace (`kw` is the literal keyword with its single space). -/
def condCmpTail (kw : String) (cs : List Char) : Option Rat :=
  (stripWs1 cs).bind fun r1 =>
  (stripPrefixCS kw.data r1).bind fun r2 =>
  (stripWs1 r2).bind fun r3 =>
  numLitTail r3

/-- `/^\{(.+)\}\s+greater than\s+(\d+\.?\d*)$/` and the `less than`
variant (greedy group 1). -/
def matchCondCmp (kw : String) (s : String) : Option (String × Rat) :=
  match s.data with
  | '{' :: rest =>
    firstSome
      (fun p =>
        if p.1 = [] || !p.1.all dotChar then none
        else (condCmpTail kw p.2).map fun n => (p.1.asString, n))
      (braceSplits rest).reverse
  | _ => none

/-- `cond.replace(/\{|\}/g, '')`. -/
def removeBraces (s : String) : String :=
  (s.data.filter (fun c => c ≠ '{' && c ≠ '}')).asString

/-- `parseFloat(v)` on an arbitrary value: coerced to string first. -/
def jsParseFloatValue (v : Option Value) : Option Rat :=
  jsParseFloat (jsOptToString v)

/-- `evaluateCondition(cond, ctx)` from the runtime: the `equals`,
`greater than` and `less than` forms in that order, then the
brace-stripped truthiness fallback. -/
def evaluateCondition (cond : String) (ctx : Ctx) : Bool :=
  let c := jsTrim cond
  match matchCondEq c with
  | some (p, lit) => jsLooseEqStr (getNested ctx p) lit
  | none =>
  match matchCondCmp "greater than" c with
  | some (p, n) =>
    match jsParseFloatValue (getNested ctx p) with
    | some q => decide (n < q)
    | none => false
  | none =>
  match matchCondCmp "less than" c with
  | some (p, n) =>
    match jsParseFloatValue (getNested ctx p) with
    | some q => decide (q < n)
    | none => false
  | none => jsTruthy (getNested ctx (removeBraces c))

/-! ### Placeholder interpolation `/\{([^\}]+)\}/g` -/

/-- At a position just after `'{'`: the non-empty run up to the next
`'}'` and the rest after it. -/
def scanPlaceholder (cs : List Char) : Option (List Char × List Char) :=
  match cs.dropWhile (fun c => c ≠ '}') with
  | '}' :: r =>
    if cs.takeWhile (fun c => c ≠ '}') = [] then none
    else some (cs.takeWhile (fun c => c ≠ '}'), r)
  | _ => none

theorem scanPlaceholder_length {cs content r : List Char}
    (h : scanPlaceholder cs = some (content, r)) : r.length < cs.length := by
  unfold scanPlaceholder at h
  split at h
  · next r1 heq =>
    split at h
    · exact absurd h (by simp)
    · injection h with h2
      injection h2 with hcontent hrest
      subst hrest
      have hsuffix : ('}' :: r1) <:+ cs := by
        rw [← heq]; exact List.dropWhile_suffix _
      have hsub : ('}' :: r1).length ≤ cs.length := hsuffix.length_le
      simp only [List.length_cons] at hsub
      omega
  · exact absurd h (by simp)

/-- The global-replace scanner shared by both interpolation call sites
(fuel-based: every step consumes at least one character, so the callers'
`length + 1` fuel always suffices). -/
def interpGo (subst : String → String) : Nat → List Char → List Char
  | 0, cs => cs
  | _, [] => []
  | fuel + 1, c :: rest =>
    if c = '{' then
      match scanPlaceholder rest with
      | some (content, r) => (subst content.asString).data ++ interpGo subst fuel r
      | none => '{' :: interpGo subst fuel rest
    else c :: interpGo subst fuel rest

def escQuotes (s : String) : String :=
  (s.data.foldr (fun c acc => if c = '"' then '\\' :: '"' :: acc else c :: acc) []).asString

/-- The `evaluateMath` substitution: strings are re-quoted with escaped
quotes, `undefined` becomes `0`, everything else is stringified. -/
def mathSubst (ctx : Ctx) (path : String) : String :=
  match getNested ctx (jsTrim path) with
  | none => "0"
  | some (.str s) => "\"" ++ escQuotes s ++ "\""
  | some v => jsValToString v

/-- The `executeStep` action substitution: `undefined` keeps the
placeholder verbatim, everything else is stringified. -/
def actionSubst (ctx : Ctx) (path : String) : String :=
  match getNested ctx (jsTrim path) with
  | none => "\x7b" ++ path ++ "\x7d"
  | some v => jsValToString v

def interpolateMath (s : String) (ctx : Ctx) : String :=
  (interpGo (mathSubst ctx) (s.data.length + 1) s.data).asString

def interpolateAction (s : String) (ctx : Ctx) : String :=
  (interpGo (actionSubst ctx) (s.data.length + 1) s.data).asString

/-! ### The dynamically evaluated math expression

`evaluateMath` builds `new Function(names…, "return <expr>;")` over the
fixed `mathFunctions` table and calls it.  The reachable expression
language is a single call `name(lit, …)` over decimal/string literals
(or a bare literal, or an empty expression).  Anything else throws at
construction or call time, which the model maps to `none`. -/

inductive JsLit where
  | num (q : Rat)
  | str (s : String)

def litVal : JsLit → Value
  | .num q => .num q
  | .str s => .str s

/-- String-literal body scan with backslash escapes (an escaped character
stands for itself; sufficient for the `\"` and `\\` escapes the
interpolation can produce). -/
def scanStrBody : List Char → Option (List Char × List Char)
  | [] => none
  | '"' :: r => some ([], r)
  | '\\' :: c :: r => (scanStrBody r).map (fun p => (c :: p.1, p.2))
  | '\\' :: [] => none
  | c :: r => (scanStrBody r).map (fun p => (c :: p.1, p.2))

def scanLit (cs : List Char) : Option (JsLit × List Char) :=
  match cs with
  | '"' :: r => (scanStrBody r).map (fun p => (.str p.1.asString, p.2))
  | _ => (scanSignedDecimal cs).map (fun p => (.num p.1, p.2))

def identStartChar (c : Char) : Bool :=
  ('a' ≤ c && c ≤ 'z') || ('A' ≤ c && c ≤ 'Z') || c = '_' || c = '$'

def identChar (c : Char) : Bool := identStartChar c || c.isDigit

def scanIdent (cs : List Char) : Option (String × List Char) :=
  match cs with
  | c :: rest =>
    if identStartChar c then
      some ((c :: rest.takeWhile identChar).asString, rest.dropWhile identChar)
    else none
  | [] => none

def jsUnaryNum (f : Rat → Rat) (v : Option Value) : Value :=
  match jsToNumber v with
  | some q => .num (f q)
  | none => .nan

/-- The closed `mathFunctions` table applied to argument values (missing
arguments are `undefined`); `none` models a thrown error (unknown name,
or the array helpers applied to non-arrays). -/
def applyMath (name : String) (args : List (Option Value)) : Option Value :=
  let a : Nat → Option Value := fun i => args.getD i none
  match name with
  | "add" => some (jsAdd (a 0) (a 1))
  | "subtract" => some (jsNumBin (· - ·) (a 0) (a 1))
  | "multiply" => some (jsNumBin (· * ·) (a 0) (a 1))
  | "divide" => some (jsDiv (a 0) (a 1))
  | "equals" => some (.bool (jsStrictEq (a 0) (a 1)))
  | "greater" => some (.bool (jsLess (a 1) (a 0)))
  | "less" => some (.bool (jsLess (a 0) (a 1)))
  | "increment" => some (jsAdd (a 0) (some (.num 1)))
  | "decrement" => some (jsNumBin (· - ·) (a 0) (some (.num 1)))
  | "round" => some (jsUnaryNum (fun q => ((q + 1/2).floor : Int)) (a 0))
  | "floor" => some (jsUnaryNum (fun q => (q.floor : Int)) (a 0))
  | "ceil" => some (jsUnaryNum (fun q => (q.ceil : Int)) (a 0))
  | "abs" => some (jsUnaryNum (fun q => |q|) (a 0))
  | "sum" => none
  | "avg" => none
  | "min" => none
  | "max" => none
  | _ => none

/-- Comma-separated literal argument list (whole input). -/
def scanArgsGo : Nat → List Char → Option (List JsLit)
  | 0, _ => none
  | fuel + 1, cs =>
    (scanLit (stripWs0 cs)).bind fun p =>
      match stripWs0 p.2 with
      | [] => some [p.1]
      | ',' :: r => (scanArgsGo fuel r).map (p.1 :: ·)
      | _ => none

def scanArgs (cs : List Char) : Option (List JsLit) :=
  if stripWs0 cs = [] then some []
  else scanArgsGo (cs.length + 1) cs

/-- Evaluate the generated function body `return <expr>;` (`none` =
throw; `some none` = the call returned `undefined`). -/
def evalJsExpr (s : String) : Option (Option Value) :=
  let cs := jsTrimList s.data
  if cs = [] then some none
  else
    match scanLit cs with
    | some (l, []) => some (some (litVal l))
    | _ =>
      match scanIdent cs with
      | some (name, '(' :: inner1) =>
        if inner1 ≠ [] ∧ inner1.getLast? = some ')' then
          match scanArgs inner1.dropLast with
          | some args =>
            match applyMath name (args.map (fun l => some (litVal l))) with
            | some v => some (some v)
            | none => none
          | none => none
        else none
      | _ => none

/-! ## Runtime state and `evaluateMath` -/

/-- The mutable parts of a `RuntimeAPI` instance that the modelled steps
touch (`resources`, `agentMap`, event listeners and the database client
belong to step kinds outside the claims). -/
structure RtState where
  context : Ctx
  allowedResolvers : List String
  warnings : List String
  disallowedAttempts : List (String × String)

/-- `evaluateMath(expr)`: interpolate, evaluate; a throw degrades to a
recorded warning and the number `0` (the thrown message text is elided
from the warning). -/
def evaluateMath (expr : String) (st : RtState) : RtState × Option Value :=
  let interpolated := interpolateMath expr st.context
  match evalJsExpr interpolated with
  | some v => (st, v)
  | none =>
    ({ st with
        warnings := st.warnings ++
          ["Failed to evaluate math expression \"" ++ interpolated ++ "\""] },
      some (.num 0))

/-! ## Resolver chain (`runResolvers`, `validateResolver`,
`logDisallowedResolver`) -/

/-- `/^(Add|Subtract|Multiply|Divide|Sum|Avg|Min|Max|Round|Floor|Ceil|Abs)\b/i`. -/
def mathKeywords : List String :=
  ["Add", "Subtract", "Multiply", "Divide", "Sum", "Avg", "Min", "Max",
   "Round", "Floor", "Ceil", "Abs"]

def mathPatternTest (s : String) : Bool :=
  mathKeywords.any fun w =>
    match stripPrefixCI w.data s.data with
    | some [] => true
    | some (c :: _) => !wordChar c
    | none => false

/-- A resolver: its effective name (`resolver?.resolverName ||
resolver?.name || ''`) and its behaviour on an action string and the
current context (`Except.error` models a thrown/rejected invocation,
`Except.ok none` a resolver that returned `undefined`). -/
structure Resolver where
  name : String
  run : String → Ctx → Except String (Option Value)

/-- The accepted shapes of the `agentResolver` argument. -/
inductive AgentResolver where
  | noResolver
  | chainObj (rs : List Resolver)
  | arrayOf (rs : List Resolver)
  | single (r : Resolver)

def resolversToRun : AgentResolver → List Resolver
  | .noResolver => []
  | .chainObj rs => rs
  | .arrayOf rs => rs
  | .single r => [r]

inductive RtErr where
  | missingName
  | notAllowed (name : String)
  | jsThrow
  | unknownWorkflowType
  | generationExceeded
deriving DecidableEq

def resolverKey (i : Nat) : String := "__resolver_" ++ natToDecString i

/-- `validateResolver`'s membership test: the allow-list entries are
trimmed before the `includes` check. -/
def allowedContains (allowed : List String) (nm : String) : Bool :=
  (allowed.map jsTrim).contains nm

/-- The invocation-time math auto-injection at the top of `runResolvers`. -/
def injectMath (actionRaw : Option String) (st : RtState) : RtState :=
  match actionRaw with
  | some a =>
    if mathPatternTest a && !st.allowedResolvers.contains "builtInMathResolver" then
      { st with allowedResolvers := st.allowedResolvers ++ ["builtInMathResolver"] }
    else st
  | none => st

def resolverFailMsg (nm : String) (idx : Nat) (action m : String) : String :=
  "Resolver " ++ (if nm = "" then natToDecString idx else nm) ++
    " failed for action \"" ++ action ++ "\": " ++ m

/-- The resolver loop of `runResolvers`: validate, invoke, record the
output under `__resolver_<idx>`, return the first defined output.  The
third component instruments the loop with the trace of invoked resolvers
(position, recorded context value). -/
def runResolversGo (action stepText : String) :
    List Resolver → Nat → RtState → List (Nat × Option Value) →
    RtState × Except RtErr (Option Value) × List (Nat × Option Value)
  | [], _, st, tr => (st, .ok none, tr)
  | r :: rest, idx, st, tr =>
    let nm := jsTrim r.name
    if nm = "" then (st, .error .missingName, tr)
    else if !allowedContains st.allowedResolvers nm then
      ({ st with disallowedAttempts := st.disallowedAttempts ++ [(nm, stepText)] },
        .error (.notAllowed nm), tr)
    else
      match r.run action st.context with
      | .ok out =>
        let st1 := { st with context := ctxSet st.context (resolverKey idx) out }
        match out with
        | some v => (st1, .ok (some v), tr ++ [(idx, out)])
        | none => runResolversGo action stepText rest (idx + 1) st1 (tr ++ [(idx, none)])
      | .error m =>
        let st1 :=
          { st with
              warnings := st.warnings ++ [resolverFailMsg r.name idx action m],
              context := ctxSet st.context (resolverKey idx) (some .null) }
        runResolversGo action stepText rest (idx + 1) st1 (tr ++ [(idx, some .null)])

/-- `runResolvers(action)` for one step dispatch; `stepText` is
`step.actionRaw || step.tool || step.target` as passed to the
disallowed-resolver log. -/
def runResolvers (actionRaw : Option String) (action stepText : String)
    (ar : AgentResolver) (st : RtState) :
    RtState × Except RtErr (Option Value) × List (Nat × Option Value) :=
  runResolversGo action stepText (resolversToRun ar) 0 (injectMath actionRaw st) []

/-! ## Step interpreter (`executeStep`) -/

/-- The step shapes the current parser can produce, plus `calculate`
(produced by the `part_001` parser revision and executed by this
runtime).  An `if` body is a list of raw strings in the current parser,
so its execution is a no-op per entry. `evolve.actionRaw` exists because
the parser's catch-all can append text onto a pending evolve step. -/
inductive Step where
  | calculate (expression : String) (saveAs : Option String)
  | action (stepNumber : Nat) (actionRaw : String) (saveAs : Option String)
  | evolve (stepNumber : Nat) (targetResolver : String) (feedback : String)
      (saveAs : Option String) (actionRaw : Option String)
  | ifStep (condition : String) (body : List String) (stepNumber : Nat)

/-- `if (step.saveAs) this.context[step.saveAs] = v` (an empty string is
falsy). -/
def saveIf (saveAs : Option String) (v : Option Value) (st : RtState) : RtState :=
  match saveAs with
  | some s => if s ≠ "" then { st with context := ctxSet st.context s v } else st
  | none => st

/-- The names accepted by the `executeStep` math-call regex
`/^(add|subtract|multiply|divide|sum|avg|min|max|round|floor|ceil|abs)\((.*)\)$/i`. -/
def mathCallNames : List String :=
  ["add", "subtract", "multiply", "divide", "sum", "avg", "min", "max",
   "round", "floor", "ceil", "abs"]

def matchMathCall (s : String) : Option (String × String) :=
  firstSome
    (fun nm =>
      match stripPrefixCI nm.data s.data with
      | some ('(' :: rest) =>
        if rest ≠ [] ∧ rest.getLast? = some ')' ∧ rest.dropLast.all dotChar then
          some (nm, rest.dropLast.asString)
        else none
      | _ => none)
    mathCallNames

/-- `s.replace(/^\{|\}$/g, '')`. -/
def stripOuterBraces (s : String) : String :=
  let cs := match s.data with | '{' :: r => r | cs => cs
  (if cs ≠ [] ∧ cs.getLast? = some '}' then cs.dropLast else cs).asString

/-- One math-call argument: a numeric-looking token is `parseFloat`ed,
anything else is a brace-stripped context lookup. -/
def mathCallArg (ctx : Ctx) (raw : String) : Option Value :=
  let s := jsTrim raw
  if jsStringToNumber s ≠ none then
    match jsParseFloat s with
    | some q => some (.num q)
    | none => some .nan
  else getNested ctx (stripOuterBraces s)

/-- The in-workflow `evolve` acknowledgment record (timestamp elided; the
environment-gated advanced-evolution marker is modelled as absent, the
kernel being configuration-free). -/
def evolveRecord (target feedback : String) (ctx : Ctx) : Value :=
  .obj ([("resolver", .str target), ("feedback", .str feedback),
         ("status", .str "evolution_requested")] ++
    (match ctxGet ctx "workflow_name" with
     | some (some v) => [("workflow", v)]
     | _ => []))

/-- `executeStep(step, agentResolver)`; `Except.error` models an
exception escaping the step (policy violation, missing resolver name, or
a throw out of a math-call application). -/
def executeStep (step : Step) (ar : AgentResolver) (st : RtState) :
    RtState × Except RtErr Unit :=
  match step with
  | .calculate expr saveAs =>
    let p := evaluateMath expr st
    (saveIf saveAs p.2 p.1, .ok ())
  | .action _ actionRaw saveAs =>
    let action := interpolateAction actionRaw st.context
    match matchMathCall action with
    | some (fn, argsRaw) =>
      let args := ((jsSplit argsRaw ',').map (mathCallArg st.context))
      match applyMath fn args with
      | some v => (saveIf saveAs (some v) st, .ok ())
      | none => (st, .error .jsThrow)
    | none =>
      let p := runResolvers (some actionRaw) action actionRaw ar st
      match p.2.1 with
      | .ok v => (saveIf saveAs v p.1, .ok ())
      | .error e => (p.1, .error e)
  | .evolve _ target feedback saveAs _ =>
    (saveIf saveAs (some (evolveRecord target feedback st.context)) st, .ok ())
  | .ifStep cond body _ =>
    -- Body entries are raw strings; the runtime's switch matches none of
    -- their (absent) type tags, so the body loop has no effect.
    if evaluateCondition cond st.context then
      let _ := body
      (st, .ok ())
    else (st, .ok ())

/-! ## Workflow executor (`executeWorkflow`) -/

/-- The workflow object produced by the current parser
(`parseWorkflowLines`); `warnings` is the source's `__warnings` with the
timestamps elided. -/
structure Workflow where
  type : String
  name : Option String
  parameters : List String
  steps : List Step
  returnValues : List String
  allowedResolvers : List String
  maxGenerations : Option Nat
  warnings : List String
  filename : String

def emptyRtState : RtState :=
  { context := [], allowedResolvers := [], warnings := [], disallowedAttempts := [] }

/-- `inputs.__generation || 1`. -/
def generationOf (inputs : Ctx) : Option Value :=
  match ctxGet inputs "__generation" with
  | some v => if jsTruthy v then v else some (.num 1)
  | none => some (.num 1)

/-- `currentGeneration > workflow.maxGenerations` (JavaScript `>`). -/
def genExceeds (gen : Option Value) (g : Nat) : Bool :=
  jsLess (some (.num (g : Rat))) gen

/-- The up-front scan of all steps for math auto-injection. -/
def stepIsMathy : Step → Bool
  | .calculate _ _ => true
  | .action _ raw _ => mathPatternTest raw
  | .evolve _ _ _ _ (some raw) => mathPatternTest raw
  | .evolve _ _ _ _ none => false
  | .ifStep _ _ _ => false

/-- `Set` insertion (insertion-ordered, duplicate-free). -/
def setAdd (l : List String) (x : String) : List String :=
  if l.contains x then l else l ++ [x]

def dedupPreserve (l : List String) : List String := l.foldl setAdd []

def execSteps (ar : AgentResolver) : List Step → RtState → RtState × Except RtErr Unit
  | [], st => (st, .ok ())
  | s :: rest, st =>
    match executeStep s ar st with
    | (st1, .ok ()) => execSteps ar rest st1
    | (st1, .error e) => (st1, .error e)

/-- `executeWorkflow(workflow, inputs, agentResolver)` on a fresh
`RuntimeAPI` (as `execute` constructs one per call).  The result map is
the return projection as an association list. -/
def executeWorkflow (wf : Workflow) (inputs : Ctx) (ar : AgentResolver) :
    RtState × Except RtErr (List (String × Option Value)) :=
  if wf.type ≠ "workflow" then (emptyRtState, .error .unknownWorkflowType)
  else
    let ctx0 := ctxSet inputs "workflow_name"
      (some (match wf.name with | some n => .str n | none => .null))
    let st0 : RtState :=
      { context := ctx0, allowedResolvers := [], warnings := [],
        disallowedAttempts := [] }
    if (match wf.maxGenerations with
        | some g => genExceeds (generationOf inputs) g
        | none => false) then
      (st0, .error .generationExceeded)
    else
      let st1 := { st0 with allowedResolvers := dedupPreserve wf.allowedResolvers }
      let st2 :=
        { st1 with
            allowedResolvers :=
              wf.steps.foldl
                (fun acc s => if stepIsMathy s then setAdd acc "builtInMathResolver" else acc)
                st1.allowedResolvers }
      let p := execSteps ar wf.steps st2
      match p.2 with
      | .ok () =>
        (p.1, .ok (wf.returnValues.map (fun k => (k, getNested p.1.context k))))
      | .error e => (p.1, .error e)

/-! ## Current parser (`parseWorkflowLines`) -/

/-- Match `\s+(.+)$`, returning the (greedy) group. -/
def wsPlusThenRest (cs : List Char) : Option (List Char) :=
  match cs with
  | c :: _ =>
    if jsWsChar c then
      match cs.dropWhile jsWsChar with
      | [] =>
        if cs.length ≥ 2 then
          (cs.getLast?).bind (fun c2 => if dotChar c2 then some [c2] else none)
        else none
      | rest => if rest.all dotChar then some rest else none
    else none
  | [] => none

/-- Match `\s*(.+)$`, returning the (greedy) group. -/
def wsStarThenRest (cs : List Char) : Option (List Char) :=
  match cs.dropWhile jsWsChar with
  | [] =>
    if cs ≠ [] then
      (cs.getLast?).bind (fun c2 => if dotChar c2 then some [c2] else none)
    else none
  | rest => if rest.all dotChar then some rest else none

/-- `/^Workflow\s+"([^"]+)"(?:\s+with\s+(.+))?$/i` (anchored). -/
def matchWorkflowHeader2 (line : String) : Option (String × Option String) :=
  (stripPrefixCI "workflow".data line.data).bind fun r =>
  (stripWs1 r).bind fun r1 =>
  match r1 with
  | '"' :: r2 =>
    let nm := r2.takeWhile (fun c => c ≠ '"')
    if nm = [] then none
    else
      match r2.dropWhile (fun c => c ≠ '"') with
      | '"' :: r4 =>
        match r4 with
        | [] => some (nm.asString, none)
        | _ =>
          (stripWs1 r4).bind fun r5 =>
          (stripPrefixCI "with".data r5).bind fun r6 =>
          (wsPlusThenRest r6).map fun g => (nm.asString, some g.asString)
      | _ => none
  | _ => none

/-- `/^Constraint:\s+max_generations\s*=\s*(\d+)$/i`. -/
def matchMaxGen (line : String) : Option Nat :=
  (stripPrefixCI "constraint:".data line.data).bind fun r =>
  (stripWs1 r).bind fun r1 =>
  (stripPrefixCI "max_generations".data r1).bind fun r2 =>
  match stripWs0 r2 with
  | '=' :: r3 =>
    let ds := stripWs0 r3
    parseNatChars ds
  | _ => none

/-- `/^Step\s+(\d+)\s*:\s*(.+)$/i`. -/
def matchStep (line : String) : Option (Nat × String) :=
  (stripPrefixCI "step".data line.data).bind fun r =>
  (stripWs1 r).bind fun r1 =>
  let ds := r1.takeWhile Char.isDigit
  if ds = [] then none
  else
    match stripWs0 (r1.dropWhile Char.isDigit) with
    | ':' :: r2 => (wsStarThenRest r2).map fun g => (digitCharsVal ds, g.asString)
    | _ => none

/-- `/^Evolve\s+([^\s]+)\s+using\s+feedback:\s*"([^"]*)"$/i`. -/
def matchEvolve2 (line : String) : Option (String × String) :=
  (stripPrefixCI "evolve".data line.data).bind fun r =>
  (stripWs1 r).bind fun r1 =>
  let tgt := r1.takeWhile (fun c => !jsWsChar c)
  if tgt = [] then none
  else
    (stripWs1 (r1.dropWhile (fun c => !jsWsChar c))).bind fun r2 =>
    (stripPrefixCI "using".data r2).bind fun r3 =>
    (stripWs1 r3).bind fun r4 =>
    (stripPrefixCI "feedback:".data r4).bind fun r5 =>
    match stripWs0 r5 with
    | '"' :: r6 =>
      let body := r6.takeWhile (fun c => c ≠ '"')
      match r6.dropWhile (fun c => c ≠ '"') with
      | ['"'] => some (tgt.asString, body.asString)
      | _ => none
    | _ => none

/-- `/^Save as\s+(.+)$/i`. -/
def matchSaveAs (line : String) : Option String :=
  (stripPrefixCI "save as".data line.data).bind fun r =>
  (wsPlusThenRest r).map List.asString

/-- `/^(?:If|When)\s+(.+)$/i`. -/
def matchIfWhen (line : String) : Option String :=
  let tryKw : String → Option String := fun kw =>
    (stripPrefixCI kw.data line.data).bind fun r =>
    (wsPlusThenRest r).map List.asString
  match tryKw "if" with
  | some g => some g
  | none => tryKw "when"

/-- `/^End(?:If)?$/i` (note: matches `End` and `EndIf`, not `End If`). -/
def matchEndIf (line : String) : Bool :=
  let l := line.data.map lowerChar
  l = "end".data || l = "endif".data

/-- `/^Return\s+(.+)$/i`. -/
def matchReturn (line : String) : Option String :=
  (stripPrefixCI "return".data line.data).bind fun r =>
  (wsPlusThenRest r).map List.asString

/-- Lazy `/(.+?)\s+Save as\s+(.+)$/i` used by the post-parse save-target
extraction: the earliest viable boundary wins. -/
def saveSplitGo (pre : List Char) : List Char → Option (String × String)
  | [] => none
  | c :: rest =>
    let attempt : Option (String × String) :=
      if pre ≠ [] ∧ pre.all dotChar ∧ jsWsChar c then
        ((stripWs1 (c :: rest)).bind fun r1 =>
         (stripPrefixCI "save as".data r1).bind fun r2 =>
         (wsPlusThenRest r2).map fun g => (pre.reverse.asString, g.asString))
      else none
    match attempt with
    | some p => some p
    | none => saveSplitGo (c :: pre) rest

def findSaveSplit (cs : List Char) : Option (String × String) := saveSplitGo [] cs

/-- Parser state while scanning lines. -/
structure P2State where
  wf : Workflow
  currentStep : Option Step
  inAllowResolvers : Bool
  inIfBlock : Bool
  ifCondition : Option String
  ifBody : List String

def pushCurrent (st : P2State) : P2State :=
  match st.currentStep with
  | some cs =>
    { st with wf := { st.wf with steps := st.wf.steps ++ [cs] }, currentStep := none }
  | none => st

def withSaveAs (s : Step) (v : String) : Step :=
  match s with
  | .action n raw _ => .action n raw (some v)
  | .evolve n t f _ ar => .evolve n t f (some v) ar
  | s => s

def appendActionRaw (s : Step) (line : String) : Step :=
  match s with
  | .action n raw sv => .action n (raw ++ " " ++ line) sv
  | .evolve n t f sv ar =>
    .evolve n t f sv
      (some ((match ar with | some a => a | none => "undefined") ++ " " ++ line))
  | s => s

/-- The branches from `Step` matching downwards (reached directly, or on
re-processing the line that ends an `Allow resolvers` section). -/
def p2Rest (line : String) (st : P2State) : P2State :=
  match matchStep line with
  | some (n, content) =>
    let st := pushCurrent st
    { st with currentStep := some (.action n content none) }
  | none =>
  match matchEvolve2 line with
  | some (tgt, fb) =>
    let st := pushCurrent st
    { st with currentStep := some (.evolve (st.wf.steps.length + 1) (jsTrim tgt) fb none none) }
  | none =>
  match matchSaveAs line, st.currentStep with
  | some v, some cs => { st with currentStep := some (withSaveAs cs (jsTrim v)) }
  | _, _ =>
  match matchIfWhen line with
  | some cond =>
    { st with ifCondition := some (jsTrim cond), inIfBlock := true, ifBody := [] }
  | none =>
  if matchEndIf line ∧ st.inIfBlock then
    let st := pushCurrent st
    { st with
        wf := { st.wf with
          steps := st.wf.steps ++
            [.ifStep (st.ifCondition.getD "") st.ifBody (st.wf.steps.length + 1)] },
        inIfBlock := false, ifCondition := none, ifBody := [] }
  else if st.inIfBlock then { st with ifBody := st.ifBody ++ [line] }
  else
  match matchReturn line with
  | some items =>
    let st := pushCurrent st
    { st with wf := { st.wf with
        returnValues := ((jsSplit items ',').map jsTrim).filter (fun r => r ≠ "") } }
  | none =>
    match st.currentStep with
    | none =>
      { st with currentStep := some (.action (st.wf.steps.length + 1) line none) }
    | some cs => { st with currentStep := some (appendActionRaw cs line) }

/-- One iteration of the scanning loop (the `i--` re-processing on
leaving an `Allow resolvers` section is the `p2Rest` call in the
allow-mode branch). -/
def p2LineStep (rawLine : String) (st : P2State) : P2State :=
  let line := jsTrim rawLine
  if line = "" ∨ jsStartsWith line "#" then st
  else if jsStartsWith line "Workflow " then
    match matchWorkflowHeader2 line with
    | some (nm, ps) =>
      let st := { st with wf := { st.wf with name := some nm } }
      match ps with
      | some pstr =>
        { st with wf := { st.wf with
            parameters := ((jsSplit pstr ',').map jsTrim).filter (fun p => p ≠ "") } }
      | none => st
    | none =>
      { st with wf := { st.wf with
          warnings := st.wf.warnings ++ ["Invalid Workflow syntax: " ++ line] } }
  else if jsStartsWith line "Constraint: max_generations = " then
    match matchMaxGen line with
    | some n => { st with wf := { st.wf with maxGenerations := some n } }
    | none =>
      { st with wf := { st.wf with
          warnings := st.wf.warnings ++ ["Invalid Constraint syntax: " ++ line] } }
  else if line = "Allow resolvers:" then { st with inAllowResolvers := true }
  else if st.inAllowResolvers then
    if jsStartsWith line "- " then
      let nm := jsTrim (strDrop line 2)
      if nm ≠ "" then
        { st with wf := { st.wf with allowedResolvers := st.wf.allowedResolvers ++ [nm] } }
      else st
    else p2Rest line { st with inAllowResolvers := false }
  else p2Rest line st

def postExtract (s : Step) : Step :=
  match s with
  | .action n raw none =>
    (match findSaveSplit raw.data with
     | some (g1, g2) => .action n (jsTrim g1) (some (jsTrim g2))
     | none => s)
  | .evolve n t f none (some raw) =>
    (match findSaveSplit raw.data with
     | some (g1, g2) => .evolve n t f (some (jsTrim g2)) (some (jsTrim g1))
     | none => s)
  | s => s

def initWorkflow2 : Workflow :=
  { type := "workflow", name := none, parameters := [], steps := [],
    returnValues := [], allowedResolvers := [], maxGenerations := none,
    warnings := [], filename := "<unknown>" }

def initP2State : P2State :=
  { wf := initWorkflow2, currentStep := none, inAllowResolvers := false,
    inIfBlock := false, ifCondition := none, ifBody := [] }

def finalize2 (st : P2State) : Workflow :=
  let st := pushCurrent st
  let wf := st.wf
  let wf := { wf with steps := wf.steps.map postExtract }
  let wf :=
    if wf.name = none then
      { wf with warnings := wf.warnings ++ ["Workflow name not found"] }
    else wf
  let wf :=
    if wf.steps.isEmpty then
      { wf with warnings := wf.warnings ++ ["No steps found in workflow"] }
    else wf
  let wf :=
    if wf.returnValues.isEmpty && !wf.steps.isEmpty then
      { wf with warnings := wf.warnings ++ ["No Return statement found"] }
    else wf
  wf

/-- `line.replace(/\r$/, '')`. -/
def stripTrailingCR (s : String) : String :=
  match s.data.getLast? with
  | some '\r' => s.data.dropLast.asString
  | _ => s

/-- `parse(content)` of the current parser (total on strings). -/
def parse2 (content : String) : Workflow :=
  let lines := (jsSplit content '\n').map stripTrailingCR
  finalize2 (lines.foldl (fun st l => p2LineStep l st) initP2State)

/-! ## The `part_001` parser revision (`parse1`)

This revision recognises the four English arithmetic sentence forms and
performs the math auto-injection.  Its file elides the remaining
branches behind the comment "(ALL remaining blocks unchanged)"; those
branches (If, Parallel, Connect, Agent, Debrief, Evolve, Prompt,
Persist, Emit, Return, Use, Ask) are reconstructed below from the prior
revision `src/parser.js` that they are declared unchanged from (Use/Ask
mirror this file's own `parseBlock`). -/

inductive ConstraintVal where
  | list (xs : List String)
  | num (q : Rat)
  | str (s : String)

inductive Step1 where
  | action (stepNumber : Nat) (actionRaw : String) (saveAs : Option String)
      (constraints : List (String × ConstraintVal))
  | calculate (expression : String) (saveAs : String)
  | ifStep (condition : String) (body : List Step1)
  | parallel (steps : List Step1)
  | connect (resource endpoint : String)
  | agentUse (logicalName resource : String)
  | debrief (agent message : String)
  | evolve (agent feedback : String)
  | prompt (question : String) (saveAs : Option String)
  | persist (varName target : String)
  | emit (event payload : String)
  | use (tool : String) (saveAs : Option String)
  | ask (target : String) (saveAs : Option String)

/-- All decompositions `cs = g ++ ch :: rest`, ascending length of `g`. -/
def charSplits (ch : Char) : List Char → List (List Char × List Char)
  | [] => []
  | c :: rest =>
    let tails := (charSplits ch rest).map (fun p => (c :: p.1, p.2))
    if c = ch then ([], rest) :: tails else tails

/-- Tail `\s+Save as\s+(.+)$` of the math sentence forms. -/
def mathTailSave (cs : List Char) : Option String :=
  (stripWs1 cs).bind fun r =>
  (stripPrefixCI "save as".data r).bind fun r2 =>
  (wsPlusThenRest r2).map List.asString

/-- `\s+<kw>\s+\{(.+?)\}\s+Save as\s+(.+)$` (lazy group). -/
def mathSecondGroup (kw : String) (cs : List Char) : Option (String × String) :=
  (stripWs1 cs).bind fun r =>
  (stripPrefixCI kw.data r).bind fun r2 =>
  (stripWs1 r2).bind fun r3 =>
  match r3 with
  | '{' :: r4 =>
    firstSome
      (fun p =>
        if p.1 = [] || !p.1.all dotChar then none
        else (mathTailSave p.2).map fun sv => (p.1.asString, sv))
      (charSplits '}' r4)
  | _ => none

/-- The shared shape of the four arithmetic sentence regexes, e.g.
`/^Add\s+\{(.+?)\}\s+and\s+\{(.+?)\}\s+Save as\s+(.+)$/i` (both inner
groups lazy). -/
def matchMathSentence (kw1 kw2 : String) (line : String) :
    Option (String × String × String) :=
  (stripPrefixCI kw1.data line.data).bind fun r =>
  (stripWs1 r).bind fun r1 =>
  match r1 with
  | '{' :: r2 =>
    firstSome
      (fun p =>
        if p.1 = [] || !p.1.all dotChar then none
        else (mathSecondGroup kw2 p.2).map fun q => (p.1.asString, q.1, q.2))
      (charSplits '}' r2)
  | _ => none

def matchMathAdd (line : String) : Option (String × String × String) :=
  matchMathSentence "add" "and" line
def matchMathSub (line : String) : Option (String × String × String) :=
  matchMathSentence "subtract" "from" line
def matchMathMul (line : String) : Option (String × String × String) :=
  matchMathSentence "multiply" "and" line
def matchMathDiv (line : String) : Option (String × String × String) :=
  matchMathSentence "divide" "by" line

/-- `/^Allow resolvers\s*:\s*$/i`. -/
def matchAllowHeader1 (line : String) : Bool :=
  match stripPrefixCI "allow resolvers".data line.data with
  | some r =>
    (match stripWs0 r with
     | ':' :: r2 => stripWs0 r2 = []
     | _ => false)
  | none => false

/-- `/^Workflow\s+"([^"]+)"(?:\s+with\s+(.+))?/i` (unanchored: trailing
junk after the name is ignored when the with-clause fails). -/
def matchWorkflowHeader1 (line : String) : Option (String × Option String) :=
  (stripPrefixCI "workflow".data line.data).bind fun r =>
  (stripWs1 r).bind fun r1 =>
  match r1 with
  | '"' :: r2 =>
    let nm := r2.takeWhile (fun c => c ≠ '"')
    if nm = [] then none
    else
      match r2.dropWhile (fun c => c ≠ '"') with
      | '"' :: r4 =>
        match (stripWs1 r4).bind fun r5 =>
              (stripPrefixCI "with".data r5).bind fun r6 =>
              wsPlusThenRest r6 with
        | some g => some (nm.asString, some g.asString)
        | none => some (nm.asString, none)
      | _ => none
  | _ => none

/-- `/^Constraint:\s*(.+)$/i`. -/
def matchConstraint1 (line : String) : Option String :=
  (stripPrefixCI "constraint:".data line.data).bind fun r =>
  (wsStarThenRest r).map List.asString

/-- Inner `/^([^=]+)=\s*(.+)$/`. -/
def matchConstraintEq (s : String) : Option (String × String) :=
  let g1 := s.data.takeWhile (fun c => c ≠ '=')
  if g1 = [] then none
  else
    match s.data.dropWhile (fun c => c ≠ '=') with
    | '=' :: r => (wsStarThenRest r).map fun g2 => (g1.asString, g2.asString)
    | _ => none

/-- `v.trim().replace(/^"/, '').replace(/"$/, '')`. -/
def stripQuoteEnds (s : String) : String :=
  let cs := match s.data with | '"' :: r => r | cs => cs
  (if cs.getLast? = some '"' then cs.dropLast else cs).asString

/-- The constraint-value coercion: bracketed list, number, quoted
string, or the raw token. -/
def coerceConstraintVal (vraw : String) : ConstraintVal :=
  let value := jsTrim vraw
  if jsStartsWith value "[" ∧ jsEndsWith value "]" then
    .list ((jsSplit (strDropRight (strDrop value 1) 1) ',').map fun v => stripQuoteEnds (jsTrim v))
  else if (jsStringToNumber value).isSome then
    .num ((jsStringToNumber value).getD 0)
  else if jsStartsWith value "\"" ∧ jsEndsWith value "\"" then
    .str (strDropRight (strDrop value 1) 1)
  else .str value

/-- `/^If\s+(.+)\s+then$/i`. -/
def matchIf1 (line : String) : Option String :=
  (stripPrefixCI "if".data line.data).bind fun r =>
  match r with
  | c :: _ =>
    if jsWsChar c ∧ r.length ≥ 6 ∧ (r.drop (r.length - 4)).map lowerChar = "then".data then
      let mid := (r.drop 1).take (r.length - 5)
      match mid.getLast? with
      | some c2 =>
        if jsWsChar c2 ∧ mid.length ≥ 2 ∧ mid.all dotChar then
          some (jsTrim mid.asString)
        else none
      | none => none
    else none
  | [] => none

/-- `/^Run in parallel$/i`. -/
def matchParallel1 (line : String) : Bool :=
  line.data.map lowerChar = "run in parallel".data

/-- `/^\s*End If\s*$/i` (the If-body sentinel). -/
def isEndIfLine (line : String) : Bool :=
  match stripPrefixCI "end if".data (stripWs0 line.data) with
  | some r => stripWs0 r = []
  | none => false

/-- `/^\s*End\s*$/i` (the parallel-body sentinel). -/
def isEndLine (line : String) : Bool :=
  match stripPrefixCI "end".data (stripWs0 line.data) with
  | some r => stripWs0 r = []
  | none => false

/-- `"([^"]+)"` followed by more input. -/
def quoted1 (cs : List Char) : Option (String × List Char) :=
  match cs with
  | '"' :: r =>
    let q := r.takeWhile (fun c => c ≠ '"')
    if q = [] then none
    else
      match r.dropWhile (fun c => c ≠ '"') with
      | '"' :: r2 => some (q.asString, r2)
      | _ => none
  | _ => none

/-- `"(.+)"$` with a greedy group: everything between the opening quote
and the final character, which must be a quote. -/
def quotedGreedyToEnd (cs : List Char) : Option String :=
  match cs with
  | '"' :: rest =>
    if rest.length ≥ 2 ∧ rest.getLast? = some '"' ∧ rest.dropLast.all dotChar then
      some rest.dropLast.asString
    else none
  | _ => none

/-- `/^Connect\s+"([^"]+)"\s+using\s+"([^"]+)"$/i`. -/
def matchConnect1 (line : String) : Option (String × String) :=
  (stripPrefixCI "connect".data line.data).bind fun r =>
  (stripWs1 r).bind fun r1 =>
  (quoted1 r1).bind fun p =>
  (stripWs1 p.2).bind fun r2 =>
  (stripPrefixCI "using".data r2).bind fun r3 =>
  (stripWs1 r3).bind fun r4 =>
  (quoted1 r4).bind fun q =>
  if q.2 = [] then some (p.1, q.1) else none

/-- `/^Agent\s+"([^"]+)"\s+uses\s+"([^"]+)"$/i`. -/
def matchAgent1 (line : String) : Option (String × String) :=
  (stripPrefixCI "agent".data line.data).bind fun r =>
  (stripWs1 r).bind fun r1 =>
  (quoted1 r1).bind fun p =>
  (stripWs1 p.2).bind fun r2 =>
  (stripPrefixCI "uses".data r2).bind fun r3 =>
  (stripWs1 r3).bind fun r4 =>
  (quoted1 r4).bind fun q =>
  if q.2 = [] then some (p.1, q.1) else none

/-- `\w+` then the rest. -/
def wordGroup (cs : List Char) : Option (String × List Char) :=
  let w := cs.takeWhile wordChar
  if w = [] then none else some (w.asString, cs.dropWhile wordChar)

/-- `/^Debrief\s+(\w+)\s+with\s+"(.+)"$/i`. -/
def matchDebrief1 (line : String) : Option (String × String) :=
  (stripPrefixCI "debrief".data line.data).bind fun r =>
  (stripWs1 r).bind fun r1 =>
  (wordGroup r1).bind fun p =>
  (stripWs1 p.2).bind fun r2 =>
  (stripPrefixCI "with".data r2).bind fun r3 =>
  (stripWs1 r3).bind fun r4 =>
  (quotedGreedyToEnd r4).map fun m => (p.1, m)

/-- `/^Evolve\s+(\w+)\s+using\s+feedback:\s+"(.+)"$/i`. -/
def matchEvolve1 (line : String) : Option (String × String) :=
  (stripPrefixCI "evolve".data line.data).bind fun r =>
  (stripWs1 r).bind fun r1 =>
  (wordGroup r1).bind fun p =>
  (stripWs1 p.2).bind fun r2 =>
  (stripPrefixCI "using".data r2).bind fun r3 =>
  (stripWs1 r3).bind fun r4 =>
  (stripPrefixCI "feedback:".data r4).bind fun r5 =>
  (stripWs1 r5).bind fun r6 =>
  (quotedGreedyToEnd r6).map fun m => (p.1, m)

/-- `/^Prompt user to\s+"(.+)"$/i`. -/
def matchPrompt1 (line : String) : Option String :=
  (stripPrefixCI "prompt user to".data line.data).bind fun r =>
  (stripWs1 r).bind fun r1 =>
  quotedGreedyToEnd r1

/-- All decompositions `cs = pre ++ suf`, ascending length of `pre`. -/
def splitsAsc : List Char → List (List Char × List Char)
  | [] => [([], [])]
  | c :: rest => ([], c :: rest) :: (splitsAsc rest).map (fun p => (c :: p.1, p.2))

/-- `/^Persist\s+(.+)\s+to\s+"(.+)"$/i` (greedy group 1: rightmost
viable ` to "…"` tail). -/
def matchPersist1 (line : String) : Option (String × String) :=
  (stripPrefixCI "persist".data line.data).bind fun r =>
  (stripWs1 r).bind fun r1 =>
  firstSome
    (fun p =>
      if p.1 = [] || !p.1.all dotChar then none
      else
        ((stripWs1 p.2).bind fun r2 =>
         (stripPrefixCI "to".data r2).bind fun r3 =>
         (stripWs1 r3).bind fun r4 =>
         (quotedGreedyToEnd r4).map fun tgt => (p.1.asString, tgt)))
    (splitsAsc r1).reverse

/-- `/^Emit\s+"(.+)"\s+with\s+(.+)$/i` (greedy group 1: rightmost
closing quote whose tail matches). -/
def matchEmit1 (line : String) : Option (String × String) :=
  (stripPrefixCI "emit".data line.data).bind fun r =>
  (stripWs1 r).bind fun r1 =>
  match r1 with
  | '"' :: r2 =>
    firstSome
      (fun p =>
        if p.1 = [] || !p.1.all dotChar then none
        else
          ((stripWs1 p.2).bind fun r3 =>
           (stripPrefixCI "with".data r3).bind fun r4 =>
           (wsPlusThenRest r4).map fun g => (p.1.asString, g.asString)))
      (charSplits '"' r2).reverse
  | _ => none

/-- `/^Use\s+(.+)$/i`. -/
def matchUse1 (line : String) : Option String :=
  (stripPrefixCI "use".data line.data).bind fun r =>
  (wsPlusThenRest r).map List.asString

/-- `/^Ask\s+(.+)$/i`. -/
def matchAsk1 (line : String) : Option String :=
  (stripPrefixCI "ask".data line.data).bind fun r =>
  (wsPlusThenRest r).map List.asString

/-- `Save as` assignment onto an existing step; variants without a
save slot get an unobserved property write in JavaScript, modelled as a
no-op. -/
def setSaveAs1 (s : Step1) (v : String) : Step1 :=
  match s with
  | .action n raw _ c => .action n raw (some v) c
  | .calculate e _ => .calculate e v
  | .prompt q _ => .prompt q (some v)
  | .use t _ => .use t (some v)
  | .ask t _ => .ask t (some v)
  | s => s

def constrSet (cs : List (String × ConstraintVal)) (k : String) (v : ConstraintVal) :
    List (String × ConstraintVal) :=
  if cs.any (fun p => p.1 = k) then
    cs.map (fun p => if p.1 = k then (p.1, v) else p)
  else cs ++ [(k, v)]

/-- Constraint attachment (only `action` steps carry an observable
constraint map). -/
def addConstraint1 (s : Step1) (k : String) (v : ConstraintVal) : Step1 :=
  match s with
  | .action n raw sv c => .action n raw sv (constrSet c k v)
  | s => s

def updateLast1 (f : Step1 → Step1) (steps : List Step1) : List Step1 :=
  match steps.getLast? with
  | some s => steps.dropLast ++ [f s]
  | none => steps

/-- `parseBlock` from the same file: the nested-block step grammar. -/
def pb1Line (acc : List Step1 × Option Nat) (line : String) : List Step1 × Option Nat :=
  match matchStep line with
  | some (n, content) => (acc.1 ++ [.action n (jsTrim content) none []], some acc.1.length)
  | none =>
    let acc :=
      match matchSaveAs line, acc.2 with
      | some v, some i =>
        (match acc.1.get? i with
         | some s => (acc.1.set i (setSaveAs1 s (jsTrim v)), acc.2)
         | none => acc)
      | _, _ => acc
    let acc :=
      match matchDebrief1 line with
      | some (a, m) => (acc.1 ++ [.debrief a m], acc.2)
      | none => acc
    let acc :=
      match matchEvolve1 line with
      | some (a, f) => (acc.1 ++ [.evolve a f], acc.2)
      | none => acc
    let acc :=
      match matchPrompt1 line with
      | some q => (acc.1 ++ [.prompt q none], acc.2)
      | none => acc
    let acc :=
      match matchUse1 line with
      | some t => (acc.1 ++ [.use (jsTrim t) none], acc.2)
      | none => acc
    let acc :=
      match matchAsk1 line with
      | some t => (acc.1 ++ [.ask (jsTrim t) none], acc.2)
      | none => acc
    acc

def parseBlock1 (lines : List String) : List Step1 :=
  (lines.foldl pb1Line ([], none)).1

/-- Scanner state of `parse1` (the fields the main loop writes;
warnings appear only in finalisation and the loop never records any). -/
structure P1Acc where
  name : String
  parameters : List String
  steps : List Step1
  returnValues : List String
  allowedResolvers : List String
  declared : List String
  requiresMath : Bool

/-- Split a line list at a sentinel: the collected body and the lines
after the sentinel (all remaining lines when no sentinel occurs). -/
def breakSentinel (p : String → Bool) (xs : List String) : List String × List String :=
  (xs.takeWhile (fun x => !p x), (xs.dropWhile (fun x => !p x)).drop 1)

theorem length_dropWhile_le2 {α : Type} (p : α → Bool) (l : List α) :
    (l.dropWhile p).length ≤ l.length :=
  (List.dropWhile_suffix p).length_le

theorem breakSentinel_snd_length (p : String → Bool) (xs : List String) :
    (breakSentinel p xs).2.length ≤ xs.length := by
  unfold breakSentinel
  dsimp only
  have h1 := length_dropWhile_le2 (fun x => !p x) xs
  have h2 : ((xs.dropWhile (fun x => !p x)).drop 1).length ≤
      (xs.dropWhile (fun x => !p x)).length := by
    rw [List.length_drop]; omega
  omega

/-- The main scanning loop of `parse1` (fuel-based: every call consumes at
least one line, so the caller's `length + 1` fuel always suffices). -/
def p1Go : Nat → List String → P1Acc → P1Acc
  | 0, _, acc => acc
  | _, [], acc => acc
  | fuel + 1, l :: rest, acc =>
    if matchAllowHeader1 l then
      let consumed := rest.takeWhile (fun x => !startsWithLetter x)
      let rest2 := rest.dropWhile (fun x => !startsWithLetter x)
      let keep := (consumed.map jsTrim).filter (fun v => v ≠ "")
      p1Go fuel rest2
        { acc with allowedResolvers := acc.allowedResolvers ++ keep,
                   declared := acc.declared ++ keep }
    else
      match matchMathAdd l with
      | some (a, b, c) =>
        p1Go fuel rest
          { acc with
              requiresMath := true,
              steps := acc.steps ++
                [.calculate ("add(\x7b" ++ a ++ "\x7d, \x7b" ++ b ++ "\x7d)") (jsTrim c)] }
      | none =>
      match matchMathSub l with
      | some (a, b, c) =>
        p1Go fuel rest
          { acc with
              requiresMath := true,
              steps := acc.steps ++
                [.calculate ("subtract(\x7b" ++ b ++ "\x7d, \x7b" ++ a ++ "\x7d)") (jsTrim c)] }
      | none =>
      match matchMathMul l with
      | some (a, b, c) =>
        p1Go fuel rest
          { acc with
              requiresMath := true,
              steps := acc.steps ++
                [.calculate ("multiply(\x7b" ++ a ++ "\x7d, \x7b" ++ b ++ "\x7d)") (jsTrim c)] }
      | none =>
      match matchMathDiv l with
      | some (a, b, c) =>
        p1Go fuel rest
          { acc with
              requiresMath := true,
              steps := acc.steps ++
                [.calculate ("divide(\x7b" ++ a ++ "\x7d, \x7b" ++ b ++ "\x7d)") (jsTrim c)] }
      | none =>
      match matchWorkflowHeader1 l with
      | some (nm, ps) =>
        p1Go fuel rest
          { acc with
              name := nm,
              parameters :=
                match ps with
                | some s => (jsSplit s ',').map jsTrim
                | none => [] }
      | none =>
      match matchStep l with
      | some (n, content) =>
        p1Go fuel rest { acc with steps := acc.steps ++ [.action n (jsTrim content) none []] }
      | none =>
      if (matchSaveAs l).isSome ∧ acc.steps.length > 0 then
        p1Go fuel rest
          { acc with steps := updateLast1 (fun s => setSaveAs1 s (jsTrim ((matchSaveAs l).getD ""))) acc.steps }
      else if (matchConstraint1 l).isSome ∧ acc.steps.length > 0 then
        p1Go fuel rest
          { acc with
              steps :=
                updateLast1
                  (fun s =>
                    match matchConstraintEq ((matchConstraint1 l).getD "") with
                    | some (k, vr) => addConstraint1 s (jsTrim k) (coerceConstraintVal vr)
                    | none => s)
                  acc.steps }
      else
      match matchIf1 l with
      | some cond =>
        let p := breakSentinel isEndIfLine rest
        p1Go fuel p.2 { acc with steps := acc.steps ++ [.ifStep cond (parseBlock1 p.1)] }
      | none =>
      if matchParallel1 l then
        let p := breakSentinel isEndLine rest
        p1Go fuel p.2 { acc with steps := acc.steps ++ [.parallel (parseBlock1 p.1)] }
      else
      match matchConnect1 l with
      | some (res, ep) => p1Go fuel rest { acc with steps := acc.steps ++ [.connect res ep] }
      | none =>
      match matchAgent1 l with
      | some (ln, res) => p1Go fuel rest { acc with steps := acc.steps ++ [.agentUse ln res] }
      | none =>
      match matchDebrief1 l with
      | some (a, m) => p1Go fuel rest { acc with steps := acc.steps ++ [.debrief a m] }
      | none =>
      match matchEvolve1 l with
      | some (a, f) => p1Go fuel rest { acc with steps := acc.steps ++ [.evolve a f] }
      | none =>
      match matchPrompt1 l with
      | some q => p1Go fuel rest { acc with steps := acc.steps ++ [.prompt q none] }
      | none =>
      match matchPersist1 l with
      | some (v, t) => p1Go fuel rest { acc with steps := acc.steps ++ [.persist (jsTrim v) t] }
      | none =>
      match matchEmit1 l with
      | some (ev, pl) => p1Go fuel rest { acc with steps := acc.steps ++ [.emit ev (jsTrim pl)] }
      | none =>
      match matchReturn l with
      | some items =>
        p1Go fuel rest { acc with returnValues := (jsSplit items ',').map jsTrim }
      | none =>
      match matchUse1 l with
      | some t => p1Go fuel rest { acc with steps := acc.steps ++ [.use (jsTrim t) none] }
      | none =>
      match matchAsk1 l with
      | some t => p1Go fuel rest { acc with steps := acc.steps ++ [.ask (jsTrim t) none] }
      | none => p1Go fuel rest acc
/-- The parsed workflow of this revision (`resolverPolicy` flattened
into the `declared`/`autoInjected`/`used`/`policyWarnings` fields). -/
structure Workflow1 where
  name : String
  parameters : List String
  steps : List Step1
  returnValues : List String
  allowedResolvers : List String
  declared : List String
  autoInjected : List String
  used : List String
  policyWarnings : List String
  warnings : List String
  requiresMath : Bool

def mathInjectWarn : String :=
  "Math operations detected. builtInMathResolver auto-injected."

def restrictedWarn : String :=
  "No \"Allow resolvers\" section declared. Workflow will run in restricted mode."

def initP1Acc : P1Acc :=
  { name := "Unnamed Workflow", parameters := [], steps := [], returnValues := [],
    allowedResolvers := [], declared := [], requiresMath := false }

/-- The lint/policy finalisation of `parse1`. -/
def finalize1 (acc : P1Acc) : Workflow1 :=
  let injected := acc.requiresMath ∧ ¬ acc.declared.contains "builtInMathResolver"
  { name := acc.name
    parameters := acc.parameters
    steps := acc.steps
    returnValues := acc.returnValues
    allowedResolvers :=
      if injected then "builtInMathResolver" :: acc.allowedResolvers
      else acc.allowedResolvers
    declared := acc.declared
    autoInjected := if injected then ["builtInMathResolver"] else []
    used := if acc.requiresMath then ["builtInMathResolver"] else []
    warnings :=
      (if injected then [mathInjectWarn] else []) ++
        (if acc.declared = [] then [restrictedWarn] else [])
    policyWarnings :=
      (if injected then [mathInjectWarn] else []) ++
        (if acc.declared = [] then [restrictedWarn] else [])
    requiresMath := acc.requiresMath }

def p1FilterLines (code : String) : List String :=
  ((jsSplit code '\n').map jsTrim).filter
    (fun l => l ≠ "" ∧ ¬ jsStartsWith l "#" ∧ ¬ jsStartsWith l "//")

/-- `parse(code)` of the `part_001` revision (the `.ol` filename check is
the caller's concern and outside the parser's text handling). -/
def parse1 (code : String) : Workflow1 :=
  finalize1 (p1Go ((p1FilterLines code).length + 1) (p1FilterLines code) initP1Acc)

/-! ## Resolver-chain lemmas -/

theorem natToDecChars_inj {m n : Nat} (h : natToDecChars m = natToDecChars n) : m = n := by
  have hm := parseNatChars_natToDecChars m
  rw [h, parseNatChars_natToDecChars n] at hm
  exact (Option.some.inj hm).symm

theorem resolverKey_inj {i j : Nat} (h : resolverKey i = resolverKey j) : i = j := by
  unfold resolverKey natToDecString at h
  have hd := congrArg String.data h
  rw [String.data_append, String.data_append] at hd
  have h1 : (natToDecChars i).asString.data = (natToDecChars j).asString.data :=
    List.append_cancel_left hd
  exact natToDecChars_inj (List.asString_inj.mp (String.ext h1))

/-- A resolver that passes validation against a fixed allow-list. -/
def chainValid (allowed : List String) (r : Resolver) : Prop :=
  jsTrim r.name ≠ "" ∧ allowedContains allowed (jsTrim r.name) = true

/-- A resolver whose invocation never produces a defined value: it
returns `undefined` or throws, whatever the context. -/
def undefOrThrows (action : String) (r : Resolver) : Prop :=
  ∀ ctx, r.run action ctx = .ok none ∨ ∃ m, r.run action ctx = .error m

/-! Single-step unfolding equations for the resolver loop. -/

theorem runResolversGo_cons_ok_none {action stepText : String} {r : Resolver}
    {rs : List Resolver} {idx : Nat} {st : RtState} {tr : List (Nat × Option Value)}
    (hname : jsTrim r.name ≠ "")
    (hallow : allowedContains st.allowedResolvers (jsTrim r.name) = true)
    (hok : r.run action st.context = .ok none) :
    runResolversGo action stepText (r :: rs) idx st tr =
      runResolversGo action stepText rs (idx + 1)
        { st with context := ctxSet st.context (resolverKey idx) none }
        (tr ++ [(idx, none)]) := by
  conv_lhs => rw [runResolversGo]
  rw [if_neg hname, hallow, hok]
  simp

theorem runResolversGo_cons_err {action stepText : String} {r : Resolver}
    {rs : List Resolver} {idx : Nat} {st : RtState} {tr : List (Nat × Option Value)}
    {m : String}
    (hname : jsTrim r.name ≠ "")
    (hallow : allowedContains st.allowedResolvers (jsTrim r.name) = true)
    (herr : r.run action st.context = .error m) :
    runResolversGo action stepText (r :: rs) idx st tr =
      runResolversGo action stepText rs (idx + 1)
        { st with
            warnings := st.warnings ++ [resolverFailMsg r.name idx action m],
            context := ctxSet st.context (resolverKey idx) (some .null) }
        (tr ++ [(idx, some .null)]) := by
  conv_lhs => rw [runResolversGo]
  rw [if_neg hname, hallow, herr]
  simp

theorem runResolversGo_cons_ok_some {action stepText : String} {r : Resolver}
    {rs : List Resolver} {idx : Nat} {st : RtState} {tr : List (Nat × Option Value)}
    {v : Value}
    (hname : jsTrim r.name ≠ "")
    (hallow : allowedContains st.allowedResolvers (jsTrim r.name) = true)
    (hok : r.run action st.context = .ok (some v)) :
    runResolversGo action stepText (r :: rs) idx st tr =
      ({ st with context := ctxSet st.context (resolverKey idx) (some v) },
        .ok (some v), tr ++ [(idx, some v)]) := by
  conv_lhs => rw [runResolversGo]
  rw [if_neg hname, hallow, hok]
  simp

theorem runResolversGo_cons_notAllowed {action stepText : String} {r : Resolver}
    {rs : List Resolver} {idx : Nat} {st : RtState} {tr : List (Nat × Option Value)}
    (hname : jsTrim r.name ≠ "")
    (hallow : allowedContains st.allowedResolvers (jsTrim r.name) = false) :
    runResolversGo action stepText (r :: rs) idx st tr =
      ({ st with disallowedAttempts := st.disallowedAttempts ++ [(jsTrim r.name, stepText)] },
        .error (.notAllowed (jsTrim r.name)), tr) := by
  conv_lhs => rw [runResolversGo]
  rw [if_neg hname, hallow]
  simp

theorem runResolversGo_cons_missing {action stepText : String} {r : Resolver}
    {rs : List Resolver} {idx : Nat} {st : RtState} {tr : List (Nat × Option Value)}
    (hname : jsTrim r.name = "") :
    runResolversGo action stepText (r :: rs) idx st tr =
      (st, .error .missingName, tr) := by
  conv_lhs => rw [runResolversGo]
  rw [if_pos hname]

theorem range'_snoc (s n : Nat) : List.range' s n ++ [s + n] = List.range' s (n + 1) := by
  induction n generalizing s with
  | zero => simp [List.range']
  | succ n ih =>
    rw [List.range'_succ, List.range'_succ]
    have h1 : s + (n + 1) = (s + 1) + n := by omega
    rw [List.cons_append, h1, ih]

/-- Walking the loop over a prefix of allowed resolvers none of which
produces a defined value: the loop reaches the suffix having invoked
exactly positions `idx, …, idx + pre.length - 1`, with the allow-list
and the disallowed log untouched. -/
theorem runResolversGo_skip (action stepText : String) (pre : List Resolver) :
    ∀ (post : List Resolver) (idx : Nat) (st : RtState) (tr : List (Nat × Option Value)),
    (∀ r ∈ pre, chainValid st.allowedResolvers r) →
    (∀ r ∈ pre, undefOrThrows action r) →
    ∃ st2 tr2,
      runResolversGo action stepText (pre ++ post) idx st tr =
        runResolversGo action stepText post (idx + pre.length) st2 (tr ++ tr2) ∧
      st2.allowedResolvers = st.allowedResolvers ∧
      st2.disallowedAttempts = st.disallowedAttempts ∧
      tr2.map Prod.fst = List.range' idx pre.length := by
  induction pre with
  | nil =>
    intro post idx st tr _ _
    exact ⟨st, [], by simp, rfl, rfl, by simp⟩
  | cons r pre ih =>
    intro post idx st tr hvalid hundef
    obtain ⟨hname, hallow⟩ := hvalid r (by simp)
    have hstep := hundef r (by simp) st.context
    rcases hstep with hok | ⟨m, herr⟩
    · obtain ⟨st2, tr2, he, ha, hd, htr⟩ :=
        ih post (idx + 1)
          { st with context := ctxSet st.context (resolverKey idx) none }
          (tr ++ [(idx, none)])
          (fun r hr => hvalid r (by simp [hr])) (fun r hr => hundef r (by simp [hr]))
      refine ⟨st2, (idx, none) :: tr2, ?_, ha, hd, ?_⟩
      · rw [List.cons_append, runResolversGo_cons_ok_none hname hallow hok, he]
        have h1 : idx + 1 + pre.length = idx + (r :: pre).length := by
          simp only [List.length_cons]; omega
        rw [h1]
        simp only [List.append_assoc, List.singleton_append]
      · simp only [List.map_cons, htr, List.length_cons, List.range'_succ]
    · obtain ⟨st2, tr2, he, ha, hd, htr⟩ :=
        ih post (idx + 1)
          { st with
              warnings := st.warnings ++ [resolverFailMsg r.name idx action m],
              context := ctxSet st.context (resolverKey idx) (some .null) }
          (tr ++ [(idx, some .null)])
          (fun r hr => hvalid r (by simp [hr])) (fun r hr => hundef r (by simp [hr]))
      refine ⟨st2, (idx, some .null) :: tr2, ?_, ha, hd, ?_⟩
      · rw [List.cons_append, runResolversGo_cons_err hname hallow herr, he]
        have h1 : idx + 1 + pre.length = idx + (r :: pre).length := by
          simp only [List.length_cons]; omega
        rw [h1]
        simp only [List.append_assoc, List.singleton_append]
      · simp only [List.map_cons, htr, List.length_cons, List.range'_succ]

theorem injectMath_fields (a : Option String) (st : RtState) :
    (injectMath a st).context = st.context ∧
    (injectMath a st).warnings = st.warnings ∧
    (injectMath a st).disallowedAttempts = st.disallowedAttempts := by
  unfold injectMath
  rcases a with _ | s
  · exact ⟨rfl, rfl, rfl⟩
  · dsimp only
    by_cases h :
      (mathPatternTest s && !st.allowedResolvers.contains "builtInMathResolver") = true
    · rw [if_pos h]; exact ⟨rfl, rfl, rfl⟩
    · rw [if_neg h]; exact ⟨rfl, rfl, rfl⟩

/-- Claim C1: in a single action dispatch over a chain of allowed
resolvers, the first resolver returning a defined value determines the
chain's result, no later resolver is invoked (the invocation trace is
exactly positions `0 … k`), and if no resolver returns a defined value
the chain's result is the unresolved sentinel `undefined`. -/
theorem resolver_chain_first_defined :
    (∀ (actionRaw : Option String) (action stepText : String)
       (pre post : List Resolver) (rk : Resolver) (v : Value) (st : RtState),
      (∀ r ∈ pre ++ rk :: post, chainValid (injectMath actionRaw st).allowedResolvers r) →
      (∀ r ∈ pre, undefOrThrows action r) →
      (∀ ctx, rk.run action ctx = .ok (some v)) →
      (runResolvers actionRaw action stepText (.chainObj (pre ++ rk :: post)) st).2.1 =
          .ok (some v) ∧
      ((runResolvers actionRaw action stepText (.chainObj (pre ++ rk :: post)) st).2.2).map
          Prod.fst = List.range' 0 (pre.length + 1)) ∧
    (∀ (actionRaw : Option String) (action stepText : String)
       (rs : List Resolver) (st : RtState),
      (∀ r ∈ rs, chainValid (injectMath actionRaw st).allowedResolvers r) →
      (∀ r ∈ rs, undefOrThrows action r) →
      (runResolvers actionRaw action stepText (.chainObj rs) st).2.1 = .ok none) := by
  constructor
  · intro actionRaw action stepText pre post rk v st hvalid hund hk
    obtain ⟨st2, tr2, he, ha, _, htr⟩ :=
      runResolversGo_skip action stepText pre (rk :: post) 0 (injectMath actionRaw st) []
        (fun r hr => hvalid r (List.mem_append_left _ hr)) hund
    have hrk := hvalid rk (List.mem_append_right _ (List.mem_cons_self _ _))
    have hname : jsTrim rk.name ≠ "" := hrk.1
    have hallow : allowedContains st2.allowedResolvers (jsTrim rk.name) = true := by
      rw [ha]; exact hrk.2
    have hfinal :
        runResolvers actionRaw action stepText (.chainObj (pre ++ rk :: post)) st =
          ({ st2 with
              context := ctxSet st2.context (resolverKey (0 + pre.length)) (some v) },
            .ok (some v), ([] ++ tr2) ++ [(0 + pre.length, some v)]) := by
      unfold runResolvers resolversToRun
      rw [he, runResolversGo_cons_ok_some hname hallow (hk st2.context)]
    rw [hfinal]
    refine ⟨rfl, ?_⟩
    simp only [List.nil_append, List.map_append, List.map_cons, List.map_nil, htr]
    have : (0 : Nat) + pre.length = 0 + pre.length := rfl
    rw [show [0 + pre.length] = [0 + pre.length] from rfl]
    simpa using range'_snoc 0 pre.length
  · intro actionRaw action stepText rs st hvalid hund
    obtain ⟨st2, tr2, he, _, _, _⟩ :=
      runResolversGo_skip action stepText rs [] 0 (injectMath actionRaw st) []
        hvalid hund
    rw [List.append_nil] at he
    have hfinal :
        (runResolvers actionRaw action stepText (.chainObj rs) st).2.1 = .ok none := by
      unfold runResolvers resolversToRun
      rw [he]
      rfl
    exact hfinal

def c1pre : List Resolver := [⟨"r0", fun _ _ => .ok none⟩]
def c1rk : Resolver := ⟨"r1", fun _ _ => .ok (some (.str "hit"))⟩
def c1post : List Resolver := [⟨"r2", fun _ _ => .ok (some (.str "later"))⟩]
def c1st : RtState :=
  { context := [], allowedResolvers := ["r0", "r1", "r2"], warnings := [],
    disallowedAttempts := [] }

/-- Witness for C1: a three-resolver chain where the middle resolver is
the first to return a defined value. -/
theorem resolver_chain_first_defined_witness :
    (runResolvers none "act" "act" (.chainObj (c1pre ++ c1rk :: c1post)) c1st).2.1 =
        .ok (some (.str "hit")) ∧
    ((runResolvers none "act" "act" (.chainObj (c1pre ++ c1rk :: c1post)) c1st).2.2).map
        Prod.fst = List.range' 0 (c1pre.length + 1) := by
  refine resolver_chain_first_defined.1 none "act" "act" c1pre c1post c1rk
    (.str "hit") c1st ?_ ?_ ?_
  · intro r hr
    simp only [c1pre, c1rk, c1post, List.mem_append, List.mem_cons,
      List.mem_singleton, List.not_mem_nil, or_false] at hr
    rcases hr with h | h | h <;> subst h <;> exact ⟨by decide, by decide⟩
  · intro r hr ctx
    simp only [c1pre, List.mem_singleton] at hr
    subst hr
    exact Or.inl rfl
  · intro ctx
    rfl

/-- The context-recording invariant of the resolver loop (claim C10). -/
theorem runResolversGo_records (action stepText : String) :
    ∀ (rs : List Resolver) (idx : Nat) (st : RtState) (tr : List (Nat × Option Value)),
    (∀ p ∈ tr, p.1 < idx) →
    (∀ p ∈ tr, ctxGet st.context (resolverKey p.1) = some p.2) →
    ∀ p ∈ (runResolversGo action stepText rs idx st tr).2.2,
      ctxGet (runResolversGo action stepText rs idx st tr).1.context (resolverKey p.1) =
        some p.2 := by
  intro rs
  induction rs with
  | nil =>
    intro idx st tr _ h2 p hp
    exact h2 p hp
  | cons r rest ih =>
    intro idx st tr h1 h2 p hp
    by_cases hname : jsTrim r.name = ""
    · rw [runResolversGo_cons_missing hname] at hp ⊢
      exact h2 p hp
    · rcases hallow : allowedContains st.allowedResolvers (jsTrim r.name) with _ | _
      · rw [runResolversGo_cons_notAllowed hname hallow] at hp ⊢
        exact h2 p hp
      · have hwrite : ∀ (w : Option Value),
            (∀ q ∈ tr ++ [(idx, w)], q.1 < idx + 1) ∧
            (∀ q ∈ tr ++ [(idx, w)],
              ctxGet (ctxSet st.context (resolverKey idx) w) (resolverKey q.1) = some q.2) := by
          intro w
          constructor
          · intro q hq
            rcases List.mem_append.mp hq with hq | hq
            · exact Nat.lt_succ_of_lt (h1 q hq)
            · simp only [List.mem_singleton] at hq
              subst hq
              exact Nat.lt_succ_self _
          · intro q hq
            rcases List.mem_append.mp hq with hq | hq
            · rw [ctxGet_set_ne]
              · exact h2 q hq
              · intro hkey
                exact absurd (resolverKey_inj hkey) (Nat.ne_of_lt (h1 q hq))
            · simp only [List.mem_singleton] at hq
              subst hq
              exact ctxGet_set_self _ _ _
        rcases hrun : r.run action st.context with m | out
        · rw [runResolversGo_cons_err hname hallow hrun] at hp ⊢
          exact ih (idx + 1) _ _ (hwrite (some .null)).1 (hwrite (some .null)).2 p hp
        · rcases out with _ | v
          · rw [runResolversGo_cons_ok_none hname hallow hrun] at hp ⊢
            exact ih (idx + 1) _ _ (hwrite none).1 (hwrite none).2 p hp
          · rw [runResolversGo_cons_ok_some hname hallow hrun] at hp ⊢
            exact (hwrite (some v)).2 p hp

/-- Claim C10 (implicit frame effect): every invoked resolver's recorded
output — the returned value, or `null` when the invocation threw — is
written into the shared context under `__resolver_<idx>`, independently
of any save-target. -/
theorem resolver_outputs_recorded
    (actionRaw : Option String) (action stepText : String)
    (ar : AgentResolver) (st : RtState) :
    ∀ p ∈ (runResolvers actionRaw action stepText ar st).2.2,
      ctxGet (runResolvers actionRaw action stepText ar st).1.context (resolverKey p.1) =
        some p.2 := by
  intro p hp
  unfold runResolvers at hp ⊢
  exact runResolversGo_records action stepText (resolversToRun ar) 0
    (injectMath actionRaw st) [] (by simp) (by simp) p hp

def c10chain : AgentResolver :=
  .chainObj [⟨"a", fun _ _ => .ok none⟩, ⟨"b", fun _ _ => .error "boom"⟩,
             ⟨"c", fun _ _ => .ok (some (.num 7))⟩]

def c10st : RtState :=
  { context := [], allowedResolvers := ["a", "b", "c"], warnings := [],
    disallowedAttempts := [] }

/-- Witness for C10: a step with no save-target still leaves each
invoked resolver's output (`undefined`, `null` for the thrower, and the
defined value) in the context. -/
theorem resolver_outputs_recorded_witness :
    ctxGet (runResolvers none "act" "act" c10chain c10st).1.context
      (resolverKey 2) = some (some (.num 7)) := by
  have hm : ((2 : Nat), (some (Value.num 7) : Option Value)) ∈
      (runResolvers none "act" "act" c10chain c10st).2.2 := by
    rw [show (runResolvers none "act" "act" c10chain c10st).2.2 =
        [(0, none), (1, some .null), (2, some (.num 7))] from rfl]
    exact List.mem_cons_of_mem _ (List.mem_cons_of_mem _ (List.mem_cons_self _ _))
  exact resolver_outputs_recorded none "act" "act" c10chain c10st
    (2, some (.num 7)) hm

def c2namelessChain : AgentResolver :=
  .chainObj [⟨" ", fun _ _ => .ok (some (.str "x"))⟩]

def c2st : RtState :=
  { context := [], allowedResolvers := ["alpha"], warnings := [],
    disallowedAttempts := [] }

/-- Counterexample to C2 as stated: a resolver whose name is empty
(after trimming) has a name absent from the allow-list, and its dispatch
does abort before invoking it — but with a missing-name fault and *zero*
entries appended to the disallowed-attempts log, not exactly one. -/
theorem policy_violation_nameless_counterexample :
    (runResolvers (some "Ask beta") "Ask beta" "Ask beta" c2namelessChain c2st).2.1 =
        .error .missingName ∧
    (runResolvers (some "Ask beta") "Ask beta" "Ask beta" c2namelessChain c2st).1.disallowedAttempts = [] ∧
    allowedContains (injectMath (some "Ask beta") c2st).allowedResolvers (jsTrim " ") = false := by
  exact ⟨rfl, rfl, rfl⟩

/-- Claim C2 (amended): when the dispatch reaches a resolver bearing a
non-empty trimmed name absent from the effective allow-list, it aborts
with a policy-violation fault, that resolver is never invoked (the trace
stops with the resolvers before it), and exactly one entry (name, step
text) is appended to the per-execution disallowed-attempts log; a
resolver with an empty/missing name instead aborts with a missing-name
fault and no log entry. -/
theorem policy_violation_logged :
    (∀ (actionRaw : Option String) (action stepText : String)
       (pre post : List Resolver) (rb : Resolver) (st : RtState),
      (∀ r ∈ pre, chainValid (injectMath actionRaw st).allowedResolvers r) →
      (∀ r ∈ pre, undefOrThrows action r) →
      jsTrim rb.name ≠ "" →
      allowedContains (injectMath actionRaw st).allowedResolvers (jsTrim rb.name) = false →
      (runResolvers actionRaw action stepText (.chainObj (pre ++ rb :: post)) st).2.1 =
          .error (.notAllowed (jsTrim rb.name)) ∧
      (runResolvers actionRaw action stepText
          (.chainObj (pre ++ rb :: post)) st).1.disallowedAttempts =
        st.disallowedAttempts ++ [(jsTrim rb.name, stepText)] ∧
      ((runResolvers actionRaw action stepText
          (.chainObj (pre ++ rb :: post)) st).2.2).map Prod.fst =
        List.range' 0 pre.length) ∧
    (∀ (actionRaw : Option String) (action stepText : String)
       (pre post : List Resolver) (rb : Resolver) (st : RtState),
      (∀ r ∈ pre, chainValid (injectMath actionRaw st).allowedResolvers r) →
      (∀ r ∈ pre, undefOrThrows action r) →
      jsTrim rb.name = "" →
      (runResolvers actionRaw action stepText (.chainObj (pre ++ rb :: post)) st).2.1 =
          .error .missingName ∧
      (runResolvers actionRaw action stepText
          (.chainObj (pre ++ rb :: post)) st).1.disallowedAttempts =
        st.disallowedAttempts) := by
  constructor
  · intro actionRaw action stepText pre post rb st hvalid hund hname hnotallow
    obtain ⟨st2, tr2, he, ha, hd, htr⟩ :=
      runResolversGo_skip action stepText pre (rb :: post) 0 (injectMath actionRaw st) []
        hvalid hund
    have hallow2 : allowedContains st2.allowedResolvers (jsTrim rb.name) = false := by
      rw [ha]; exact hnotallow
    have hfinal :
        runResolvers actionRaw action stepText (.chainObj (pre ++ rb :: post)) st =
          ({ st2 with
              disallowedAttempts := st2.disallowedAttempts ++ [(jsTrim rb.name, stepText)] },
            .error (.notAllowed (jsTrim rb.name)), [] ++ tr2) := by
      unfold runResolvers resolversToRun
      rw [he, runResolversGo_cons_notAllowed hname hallow2]
    rw [hfinal]
    refine ⟨rfl, ?_, by simpa using htr⟩
    show st2.disallowedAttempts ++ _ = _
    rw [hd, (injectMath_fields actionRaw st).2.2]
  · intro actionRaw action stepText pre post rb st hvalid hund hname
    obtain ⟨st2, tr2, he, _, hd, _⟩ :=
      runResolversGo_skip action stepText pre (rb :: post) 0 (injectMath actionRaw st) []
        hvalid hund
    have hfinal :
        runResolvers actionRaw action stepText (.chainObj (pre ++ rb :: post)) st =
          (st2, .error .missingName, [] ++ tr2) := by
      unfold runResolvers resolversToRun
      rw [he, runResolversGo_cons_missing hname]
    rw [hfinal]
    refine ⟨rfl, ?_⟩
    show st2.disallowedAttempts = _
    rw [hd, (injectMath_fields actionRaw st).2.2]

def c2preChain : List Resolver := [⟨"r0", fun _ _ => .ok none⟩]
def c2bad : Resolver := ⟨"beta", fun _ _ => .ok (some (.str "never"))⟩
def c2st2 : RtState :=
  { context := [], allowedResolvers := ["r0", "alpha"], warnings := [],
    disallowedAttempts := [] }

/-- Witness for C2 (amended): dispatching `Ask something` through a
chain whose second resolver `beta` is not allowed aborts with a policy
fault and logs exactly the one entry. -/
theorem policy_violation_logged_witness :
    (runResolvers (some "Ask something") "Ask something" "Ask something"
        (.chainObj (c2preChain ++ c2bad :: [])) c2st2).2.1 =
      .error (.notAllowed (jsTrim c2bad.name)) ∧
    (runResolvers (some "Ask something") "Ask something" "Ask something"
        (.chainObj (c2preChain ++ c2bad :: [])) c2st2).1.disallowedAttempts =
      c2st2.disallowedAttempts ++ [(jsTrim c2bad.name, "Ask something")] ∧
    ((runResolvers (some "Ask something") "Ask something" "Ask something"
        (.chainObj (c2preChain ++ c2bad :: [])) c2st2).2.2).map Prod.fst =
      List.range' 0 c2preChain.length := by
  refine policy_violation_logged.1 (some "Ask something") "Ask something" "Ask something"
    c2preChain [] c2bad c2st2 ?_ ?_ (by decide) (by decide)
  · intro r hr
    simp only [c2preChain, List.mem_singleton] at hr
    subst hr
    exact ⟨by decide, by decide⟩
  · intro r hr ctx
    simp only [c2preChain, List.mem_singleton] at hr
    subst hr
    exact Or.inl rfl

/-- Claim C6: a workflow re-invoked beyond its declared generation
ceiling hard-faults before any step runs: the execution ends in the
generation error with the context exactly as initialised (inputs plus
the workflow name) and nothing else touched. -/
theorem generation_ceiling_aborts
    (wf : Workflow) (inputs : Ctx) (ar : AgentResolver) (g : Nat)
    (htype : wf.type = "workflow")
    (hmax : wf.maxGenerations = some g)
    (hgen : genExceeds (generationOf inputs) g = true) :
    executeWorkflow wf inputs ar =
      ({ context := ctxSet inputs "workflow_name"
            (some (match wf.name with | some n => .str n | none => .null)),
          allowedResolvers := [], warnings := [], disallowedAttempts := [] },
        .error .generationExceeded) := by
  unfold executeWorkflow
  rw [if_neg (show ¬ wf.type ≠ "workflow" from fun h => h htype)]
  rw [hmax]
  simp only [hgen, if_true]

def c6wf : Workflow :=
  parse2 "Workflow \"G\"\nConstraint: max_generations = 2\nStep 1: Ask agent\nReturn r"

def c6inputs : Ctx := [("__generation", some (.num 5))]

/-- Witness for C6: a workflow with ceiling 2 invoked at generation 5
aborts with only the initialised context. -/
theorem generation_ceiling_aborts_witness :
    executeWorkflow c6wf c6inputs (.chainObj []) =
      ({ context := ctxSet c6inputs "workflow_name"
            (some (match c6wf.name with | some n => .str n | none => .null)),
          allowedResolvers := [], warnings := [], disallowedAttempts := [] },
        .error .generationExceeded) :=
  generation_ceiling_aborts c6wf c6inputs (.chainObj []) 2 (by decide) (by decide) (by decide)

/-- Claim C7: when the (interpolated) arithmetic expression fails to
evaluate, `evaluateMath` yields the number `0` and appends exactly one
warning, and the failure never aborts the enclosing `calculate` step. -/
theorem math_failure_degrades (expr : String) (st : RtState)
    (hfail : evalJsExpr (interpolateMath expr st.context) = none) :
    evaluateMath expr st =
      ({ st with
          warnings := st.warnings ++
            ["Failed to evaluate math expression \"" ++
              interpolateMath expr st.context ++ "\""] },
        some (.num 0)) ∧
    (∀ (sv : Option String) (ar : AgentResolver),
      (executeStep (.calculate expr sv) ar st).2 = .ok ()) := by
  constructor
  · unfold evaluateMath
    dsimp only
    rw [hfail]
  · intro sv ar
    rfl

/-- Witness for C7: the unparsable expression `(` degrades to `0` and a
single warning without aborting the step. -/
theorem math_failure_degrades_witness :
    evaluateMath "(" emptyRtState =
      ({ emptyRtState with
          warnings := ["Failed to evaluate math expression \"(\""] },
        some (.num 0)) ∧
    (executeStep (.calculate "(" (some "out")) .noResolver emptyRtState).2 = .ok () := by
  have h := math_failure_degrades "(" emptyRtState (by decide)
  exact ⟨h.1, h.2 (some "out") .noResolver⟩


/-! ## C8: condition comparison forms -/

/-- Modelled from the spec: `evaluateCondition` as the specification
describes it, recognising exactly two comparison forms (`equals` with a
quoted literal and `greater than` with a numeric literal) plus the
brace-stripped truthiness fallback — and no other comparison form. -/
def specCondTwoForms (cond : String) (ctx : Ctx) : Bool :=
  let c := jsTrim cond
  match matchCondEq c with
  | some (p, lit) => jsLooseEqStr (getNested ctx p) lit
  | none =>
  match matchCondCmp "greater than" c with
  | some (p, n) =>
    match jsParseFloatValue (getNested ctx p) with
    | some q => decide (n < q)
    | none => false
  | none => jsTruthy (getNested ctx (removeBraces c))

/-- **C8** counterexample: the runtime recognises a third comparison form,
`\x7bpath\x7d less than N`, which the spec's two-form reading sends to the
truthiness fallback instead.  On `\x7bx\x7d less than 5` with `x = 3` the
code answers `true` (3 < 5) while the two-form semantics answers `false`
(no context entry named `x less than 5`). -/
theorem condition_two_forms_counterexample :
    evaluateCondition "\x7bx\x7d less than 5" [("x", some (.num 3))] = true ∧
      specCondTwoForms "\x7bx\x7d less than 5" [("x", some (.num 3))] = false := by
  constructor <;> decide

/-- **C8** (amended): `evaluateCondition` recognises the `equals` and
`greater than` forms exactly as specified, but also a third form
`\x7bpath\x7d less than N`; whenever the `less than` pattern does not
match, the code agrees with the two-form semantics, and when it is the
first pattern to match, the code performs the numeric strict-less
comparison while the two-form semantics falls through to truthiness. -/
theorem condition_less_than_form (cond : String) (ctx : Ctx) :
    (matchCondCmp "less than" (jsTrim cond) = none →
        evaluateCondition cond ctx = specCondTwoForms cond ctx) ∧
    (∀ p n, matchCondEq (jsTrim cond) = none →
        matchCondCmp "greater than" (jsTrim cond) = none →
        matchCondCmp "less than" (jsTrim cond) = some (p, n) →
        evaluateCondition cond ctx =
          (match jsParseFloatValue (getNested ctx p) with
           | some q => decide (q < n)
           | none => false) ∧
        specCondTwoForms cond ctx =
          jsTruthy (getNested ctx (removeBraces (jsTrim cond)))) := by
  unfold evaluateCondition specCondTwoForms
  constructor
  · intro hlt
    cases he : matchCondEq (jsTrim cond) with
    | some pl => simp only [he]
    | none =>
      cases hg : matchCondCmp "greater than" (jsTrim cond) with
      | some pn => simp only [he, hg]
      | none => simp only [he, hg, hlt]
  · intro p n he hg hl
    simp only [he, hg, hl]
    exact ⟨trivial, trivial⟩

/-- Concrete instantiation of `condition_less_than_form` at
`\x7bx\x7d less than 5` with `x = 3`. -/
theorem condition_less_than_form_witness :
    evaluateCondition "\x7bx\x7d less than 5" [("x", some (.num 3))] = true := by
  have h := (condition_less_than_form "\x7bx\x7d less than 5"
      [("x", some (.num 3))]).2 "x" 5 (by decide) (by decide) (by decide)
  rw [h.1]
  decide

/-! ## C5: parser totality and warning categories -/

/-- The warning categories the current parser can actually record:
two malformed-header kinds during the scan and three lint kinds at
finalisation.  Notably there is no category for a generic
unrecognised line. -/
def warnCat (w : String) : Prop :=
  (∃ l, w = "Invalid Workflow syntax: " ++ l) ∨
  (∃ l, w = "Invalid Constraint syntax: " ++ l) ∨
  w = "Workflow name not found" ∨
  w = "No steps found in workflow" ∨
  w = "No Return statement found"

theorem pushCurrent_warnings (st : P2State) :
    (pushCurrent st).wf.warnings = st.wf.warnings := by
  unfold pushCurrent
  split <;> rfl

theorem p2Rest_warnings (line : String) (st : P2State) :
    (p2Rest line st).wf.warnings = st.wf.warnings := by
  unfold p2Rest
  repeat' split
  all_goals simp [pushCurrent_warnings]

theorem p2LineStep_warnings (l : String) (st : P2State) :
    ∀ w ∈ (p2LineStep l st).wf.warnings, w ∈ st.wf.warnings ∨ warnCat w := by
  intro w hw
  unfold p2LineStep at hw
  dsimp only at hw
  repeat' split at hw
  all_goals
    first
      | exact Or.inl hw
      | (rw [p2Rest_warnings] at hw
         exact Or.inl hw)
      | (simp only [List.mem_append, List.mem_singleton] at hw
         cases hw with
         | inl h => exact Or.inl h
         | inr h => exact Or.inr (Or.inl ⟨_, h⟩))
      | (simp only [List.mem_append, List.mem_singleton] at hw
         cases hw with
         | inl h => exact Or.inl h
         | inr h => exact Or.inr (Or.inr (Or.inl ⟨_, h⟩)))

theorem p2Fold_warnings (lines : List String) (st : P2State)
    (h : ∀ w ∈ st.wf.warnings, warnCat w) :
    ∀ w ∈ (lines.foldl (fun st l => p2LineStep l st) st).wf.warnings, warnCat w := by
  induction lines generalizing st with
  | nil => exact h
  | cons l rest ih =>
    rw [List.foldl_cons]
    refine ih (p2LineStep l st) ?_
    intro w hw
    cases p2LineStep_warnings l st w hw with
    | inl h2 => exact h w h2
    | inr h2 => exact h2

theorem finalize2_warnings (st : P2State) :
    ∀ w ∈ (finalize2 st).warnings, w ∈ st.wf.warnings ∨ warnCat w := by
  intro w hw
  unfold finalize2 at hw
  dsimp only at hw
  split at hw <;> split at hw <;> split at hw <;>
    simp only [List.mem_append, List.mem_singleton, pushCurrent_warnings] at hw <;>
    tauto

/-- **C5** counterexample: an unrecognised line (`lorem ipsum`) does not
degrade to a recorded warning — the parser silently turns it into an
action step, so the workflow has one step and an empty warning list. -/
theorem parser_unrecognized_line_counterexample :
    (parse2 "Workflow \"W\"\nlorem ipsum\nReturn x").warnings = [] ∧
      (parse2 "Workflow \"W\"\nlorem ipsum\nReturn x").steps.length = 1 := by
  constructor <;> rfl

/-- **C5** (amended): the parser is a total function whose scan records
warnings only in five fixed categories (malformed `Workflow` header,
malformed `Constraint`, missing name, zero steps, missing `Return`);
there is no unrecognised-line category — a line reaching the step-level
dispatch never records a warning, being absorbed into the step list
instead. -/
theorem parser_totality_warning_categories (s : String) :
    (∀ w ∈ (parse2 s).warnings, warnCat w) ∧
      (∀ line st, (p2Rest line st).wf.warnings = st.wf.warnings) := by
  constructor
  · intro w hw
    unfold parse2 at hw
    dsimp only at hw
    rcases finalize2_warnings _ w hw with h | h
    · refine p2Fold_warnings _ initP2State ?_ w h
      intro w2 hw2
      exact absurd hw2 (by simp [initP2State, initWorkflow2])
    · exact h
  · exact p2Rest_warnings

/-- Concrete instantiation of `parser_totality_warning_categories` on a
workflow with zero steps. -/
theorem parser_totality_warning_categories_witness :
    warnCat "No steps found in workflow" :=
  (parser_totality_warning_categories "Workflow \"W\"").1
    "No steps found in workflow" (by decide)

/-! ## C4: math auto-injection -/

/-- Once the scan has seen a math sentence, `requiresMath` stays set. -/
theorem p1Go_requiresMath_mono (fuel : Nat) :
    ∀ lines acc, acc.requiresMath = true →
      (p1Go fuel lines acc).requiresMath = true := by
  induction fuel with
  | zero => intro lines acc h; cases lines <;> exact h
  | succ fuel ih =>
    intro lines acc h
    cases lines with
    | nil => exact h
    | cons l rest =>
      unfold p1Go
      repeat' split
      all_goals first | exact h | exact ih _ _ h | exact ih _ _ rfl

/-- A workflow source whose only arithmetic sentence sits inside an
`If` block. -/
def c4src : String :=
  "If \x7bx\x7d then\nAdd \x7ba\x7d and \x7bb\x7d Save as c\nEnd If\nReturn c"

/-- **C4** counterexample: `c4src` contains an arithmetic sentence and
declares no capabilities, yet the parsed workflow neither lists
`builtInMathResolver` in its allow-list nor carries the auto-injection
warning: the math line was consumed as raw `If`-body text, which the
block grammar does not recognise. -/
theorem math_autoinjection_counterexample :
    ((p1FilterLines c4src).any (fun l => (matchMathAdd l).isSome)) = true ∧
      (parse1 c4src).allowedResolvers.contains "builtInMathResolver" = false ∧
      (parse1 c4src).warnings.count mathInjectWarn = 0 := by
  refine ⟨?_, ?_, ?_⟩ <;> decide

/-- **C4** (amended): the auto-injection fires for arithmetic sentences
scanned at the top level.  If the line the main loop is about to process
is an `Add` sentence (and not an `Allow resolvers` header), the scan ends
with `requiresMath` set; and finalising any scan state with
`requiresMath` set whose declarations omit `builtInMathResolver` puts
that name into the allow-list with exactly one auto-injection warning.
Math sentences inside `If`/`Parallel` bodies are never scanned by the
main loop, which is the gap the counterexample exhibits. -/
theorem math_autoinjection_toplevel :
    (∀ fuel l rest acc a b c, matchAllowHeader1 l = false →
        matchMathAdd l = some (a, b, c) →
        (p1Go (fuel + 1) (l :: rest) acc).requiresMath = true) ∧
    (∀ acc, acc.requiresMath = true →
        acc.declared.contains "builtInMathResolver" = false →
        (finalize1 acc).allowedResolvers.contains "builtInMathResolver" = true ∧
        (finalize1 acc).warnings.count mathInjectWarn = 1) := by
  constructor
  · intro fuel l rest acc a b c hna hm
    unfold p1Go
    simp only [hna, hm, Bool.false_eq_true, if_false]
    exact p1Go_requiresMath_mono _ _ _ rfl
  · intro acc h1 h2
    have hmem : "builtInMathResolver" ∉ acc.declared := by simpa using h2
    have hinj : acc.requiresMath = true ∧
        ¬ acc.declared.contains "builtInMathResolver" = true := ⟨h1, by simpa using h2⟩
    constructor
    · simp [finalize1, hinj, hmem]
    · by_cases hd : acc.declared = []
      · simp [finalize1, hinj, hmem, hd, mathInjectWarn, restrictedWarn]
      · simp [finalize1, hinj, hmem, hd, mathInjectWarn, restrictedWarn]

/-- Concrete instantiation of `math_autoinjection_toplevel`: a top-level
`Add` sentence sets `requiresMath`, and finalising such a state yields
exactly one auto-injection warning. -/
theorem math_autoinjection_toplevel_witness :
    (p1Go 1 ["Add \x7ba\x7d and \x7bb\x7d Save as c"] initP1Acc).requiresMath = true ∧
      (finalize1 { initP1Acc with requiresMath := true }).warnings.count
        mathInjectWarn = 1 :=
  ⟨math_autoinjection_toplevel.1 0 _ [] initP1Acc "a" "b" "c" (by decide) (by decide),
   (math_autoinjection_toplevel.2 { initP1Acc with requiresMath := true } rfl
      (by decide)).2⟩

/-! ## C3: the arithmetic sentence end to end -/

theorem interpGo_nil (subst : String → String) (fuel : Nat) :
    interpGo subst fuel [] = [] := by
  cases fuel <;> rfl

/-- The interpolation scanner ignores fuel as long as there is enough of
it. -/
theorem interpGo_fuel (subst : String → String) :
    ∀ n cs fuel fuel', cs.length ≤ n → cs.length ≤ fuel → cs.length ≤ fuel' →
      interpGo subst fuel cs = interpGo subst fuel' cs := by
  intro n
  induction n with
  | zero =>
    intro cs fuel fuel' hn _ _
    have : cs = [] := List.length_eq_zero.mp (Nat.le_zero.mp hn)
    subst this
    rw [interpGo_nil, interpGo_nil]
  | succ n ih =>
    intro cs fuel fuel' hn hf hf'
    cases cs with
    | nil => rw [interpGo_nil, interpGo_nil]
    | cons c rest =>
      simp only [List.length_cons] at hn hf hf'
      cases fuel with
      | zero => omega
      | succ f =>
        cases fuel' with
        | zero => omega
        | succ f' =>
          show interpGo subst (f + 1) (c :: rest) = interpGo subst (f' + 1) (c :: rest)
          unfold interpGo
          by_cases hc : c = '{'
          · rw [if_pos hc, if_pos hc]
            cases hp : scanPlaceholder rest with
            | some pr =>
              obtain ⟨content, r⟩ := pr
              have hr := scanPlaceholder_length hp
              simp only
              rw [ih r f f' (by omega) (by omega) (by omega)]
            | none =>
              simp only
              rw [ih rest f f' (by omega) (by omega) (by omega)]
          · rw [if_neg hc, if_neg hc]
            rw [ih rest f f' (by omega) (by omega) (by omega)]

theorem interpGo_cons_nobrace (subst : String → String) (c : Char) (cs : List Char)
    (fuel : Nat) (hc : c ≠ '{') (hf : cs.length + 1 ≤ fuel) :
    interpGo subst fuel (c :: cs) = c :: interpGo subst fuel cs := by
  cases fuel with
  | zero => omega
  | succ f =>
    have hstep : interpGo subst (f + 1) (c :: cs) =
        if c = '{' then
          (match scanPlaceholder cs with
           | some (content, r) => (subst content.asString).data ++ interpGo subst f r
           | none => '{' :: interpGo subst f cs)
        else c :: interpGo subst f cs := rfl
    rw [hstep, if_neg hc,
      interpGo_fuel subst cs.length cs f (f + 1) le_rfl (by omega) (by omega)]

theorem interpGo_append_nobrace (subst : String → String) (pre rest : List Char)
    (fuel : Nat) (h : ∀ c ∈ pre, c ≠ '{') (hf : (pre ++ rest).length ≤ fuel) :
    interpGo subst fuel (pre ++ rest) = pre ++ interpGo subst fuel rest := by
  induction pre with
  | nil => rfl
  | cons c pre ih =>
    simp only [List.cons_append, List.length_cons, List.length_append] at hf ⊢
    rw [interpGo_cons_nobrace subst c (pre ++ rest) fuel (h c (by simp))
      (by simp only [List.length_append]; omega)]
    rw [ih (fun x hx => h x (by simp [hx])) (by simp only [List.length_append]; omega)]

theorem takeWhile_all_append (p : Char → Bool) (xs ys : List Char)
    (hx : ∀ x ∈ xs, p x = true) :
    (xs ++ ys).takeWhile p = xs ++ ys.takeWhile p ∧
      (xs ++ ys).dropWhile p = ys.dropWhile p := by
  induction xs with
  | nil => exact ⟨rfl, rfl⟩
  | cons x xs ih =>
    have hpx : p x = true := hx x (by simp)
    have := ih (fun a ha => hx a (by simp [ha]))
    constructor
    · simp [List.takeWhile_cons, hpx, this.1]
    · simp [List.dropWhile_cons, hpx, this.2]

theorem scanPlaceholder_exact (content rest : List Char) (hne : content ≠ [])
    (hnb : ∀ ch ∈ content, ch ≠ '}') :
    scanPlaceholder (content ++ '}' :: rest) = some (content, rest) := by
  have h := takeWhile_all_append (fun c => decide (c ≠ '}')) content ('}' :: rest)
    (fun x hx => by simpa using hnb x hx)
  unfold scanPlaceholder
  rw [h.2, h.1]
  have h1 : List.dropWhile (fun c => decide (c ≠ '}')) ('}' :: rest) = '}' :: rest := by
    simp
  have h2 : List.takeWhile (fun c => decide (c ≠ '}')) ('}' :: rest) = [] := by
    simp
  rw [h1, h2, List.append_nil]
  simp [hne]

theorem interpGo_placeholder (subst : String → String) (content rest : List Char)
    (fuel : Nat) (hne : content ≠ []) (hnb : ∀ ch ∈ content, ch ≠ '}')
    (hf : ('{' :: (content ++ '}' :: rest)).length ≤ fuel) :
    interpGo subst fuel ('{' :: (content ++ '}' :: rest)) =
      (subst content.asString).data ++ interpGo subst fuel rest := by
  simp only [List.length_cons, List.length_append] at hf
  cases fuel with
  | zero => omega
  | succ f =>
    have hstep : interpGo subst (f + 1) ('{' :: (content ++ '}' :: rest)) =
        if '{' = '{' then
          (match scanPlaceholder (content ++ '}' :: rest) with
           | some (content, r) => (subst content.asString).data ++ interpGo subst f r
           | none => '{' :: interpGo subst f (content ++ '}' :: rest))
        else '{' :: interpGo subst f (content ++ '}' :: rest) := rfl
    rw [hstep, if_pos rfl, scanPlaceholder_exact content rest hne hnb]
    simp only
    rw [interpGo_fuel subst rest.length rest f (f + 1) le_rfl (by omega) (by omega)]

/-- Interpolating the `add` expression the math branch emits replaces the
two placeholders and nothing else. -/
theorem interpolateMath_add (a b : String) (ctx : Ctx)
    (hane : a.data ≠ []) (hanb : ∀ ch ∈ a.data, ch ≠ '}')
    (hbne : b.data ≠ []) (hbnb : ∀ ch ∈ b.data, ch ≠ '}') :
    interpolateMath ("add(\x7b" ++ a ++ "\x7d, \x7b" ++ b ++ "\x7d)") ctx =
      "add(" ++ mathSubst ctx a ++ ", " ++ mathSubst ctx b ++ ")" := by
  apply String.ext
  have hdata : ("add(\x7b" ++ a ++ "\x7d, \x7b" ++ b ++ "\x7d)").data =
      ['a', 'd', 'd', '('] ++
        ('{' :: (a.data ++ '}' :: ([',', ' '] ++ ('{' :: (b.data ++ '}' :: [')']))))) := by
    simp [String.data_append]
  show interpGo (mathSubst ctx)
      (("add(\x7b" ++ a ++ "\x7d, \x7b" ++ b ++ "\x7d)").data.length + 1)
      ("add(\x7b" ++ a ++ "\x7d, \x7b" ++ b ++ "\x7d)").data = _
  rw [hdata]
  rw [interpGo_append_nobrace _ _ _ _ (by decide)
    (by simp only [List.length_append, List.length_cons]; omega)]
  rw [interpGo_placeholder _ _ _ _ hane hanb
    (by simp only [List.length_append, List.length_cons]; omega)]
  rw [interpGo_append_nobrace _ [',', ' '] _ _ (by decide)
    (by simp only [List.length_append, List.length_cons]; omega)]
  rw [interpGo_placeholder _ _ _ _ hbne hbnb
    (by simp only [List.length_append, List.length_cons]; omega)]
  rw [interpGo_cons_nobrace _ ')' [] _ (by decide)
    (by simp only [List.length_append, List.length_cons]; omega)]
  rw [interpGo_nil]
  simp only [String.data_append, List.append_assoc, List.cons_append, List.nil_append]
  rfl

theorem ratToString_intCast (i : Int) : ratToString (i : Rat) = intToDecString i := by
  unfold ratToString
  simp [Rat.den_intCast, Rat.num_intCast]

theorem mathSubst_num (ctx : Ctx) (a : String) (va : Int) (ha : jsTrim a = a)
    (hg : getNested ctx a = some (.num (va : Rat))) :
    mathSubst ctx a = intToDecString va := by
  unfold mathSubst
  rw [ha, hg]
  exact ratToString_intCast va

theorem natToDecChars_forall_digit (n : Nat) :
    ∀ x ∈ natToDecChars n, Char.isDigit x = true := by
  have h := natToDecChars_all_isDigit n
  rw [List.all_eq_true] at h
  intro x hx
  simpa using h x hx

theorem scanDecimal_nat (n : Nat) (rest : List Char)
    (hhd : ∀ c t, rest = c :: t → (c.isDigit = false ∧ c ≠ '.')) :
    scanDecimal (natToDecChars n ++ rest) = some ((n : Rat), rest) := by
  have h := takeWhile_all_append Char.isDigit (natToDecChars n) rest
    (natToDecChars_forall_digit n)
  cases rest with
  | nil =>
    unfold scanDecimal
    dsimp only
    rw [List.append_nil] at h ⊢
    rw [h.1, h.2]
    simp only [List.takeWhile_nil, List.dropWhile_nil, List.append_nil]
    rw [if_neg (natToDecChars_ne_nil n), digitCharsVal_natToDecChars]
  | cons c t =>
    obtain ⟨hcd, hcdot⟩ := hhd c t rfl
    unfold scanDecimal
    dsimp only
    have hrt : (c :: t).takeWhile Char.isDigit = [] := by
      simp [List.takeWhile_cons, hcd]
    have hrd : (c :: t).dropWhile Char.isDigit = c :: t := by
      simp [List.dropWhile_cons, hcd]
    rw [h.1, hrt, List.append_nil, h.2, hrd]
    split
    · next r2 heq =>
      rw [List.cons.injEq] at heq
      exact absurd heq.1 hcdot
    · rw [if_neg (natToDecChars_ne_nil n), digitCharsVal_natToDecChars]

theorem scanSignedDecimal_int (i : Int) (rest : List Char)
    (hhd : ∀ c t, rest = c :: t → (c.isDigit = false ∧ c ≠ '.')) :
    scanSignedDecimal ((intToDecString i).data ++ rest) = some ((i : Rat), rest) := by
  unfold intToDecString
  by_cases hi : i < 0
  · rw [if_pos hi]
    have hdata : ("-" ++ natToDecString i.natAbs).data ++ rest =
        '-' :: (natToDecChars i.natAbs ++ rest) := rfl
    rw [hdata]
    show (scanDecimal (natToDecChars i.natAbs ++ rest)).map (fun p => (-p.1, p.2)) = _
    rw [scanDecimal_nat i.natAbs rest hhd]
    have hcast : -((i.natAbs : Nat) : Rat) = (i : Rat) := by
      rw [Int.cast_natAbs, abs_of_neg (by exact_mod_cast hi)]
      push_cast
      ring
    simp [hcast]
  · rw [if_neg hi]
    have hne := natToDecChars_ne_nil i.natAbs
    rcases hL : natToDecChars i.natAbs with _ | ⟨c, t⟩
    · exact absurd hL hne
    · have hcd : c.isDigit = true := natToDecChars_forall_digit i.natAbs c (by rw [hL]; simp)
      have hdata : (natToDecString i.natAbs).data ++ rest = c :: (t ++ rest) := by
        unfold natToDecString
        rw [hL]
        rfl
      rw [hdata]
      unfold scanSignedDecimal
      split
      · next heq =>
        rw [List.cons.injEq] at heq
        rw [heq.1] at hcd
        exact absurd hcd (by decide)
      · next heq =>
        rw [List.cons.injEq] at heq
        rw [heq.1] at hcd
        exact absurd hcd (by decide)
      · have hback : c :: (t ++ rest) = natToDecChars i.natAbs ++ rest := by rw [hL]; rfl
        rw [hback, scanDecimal_nat i.natAbs rest hhd]
        have hcast : ((i.natAbs : Nat) : Rat) = (i : Rat) := by
          rw [Int.cast_natAbs, abs_of_nonneg (by exact_mod_cast not_lt.mp hi)]
        rw [hcast]

theorem ws_not_digit (c : Char) (h : jsWsChar c = true) : c.isDigit = false := by
  unfold jsWsChar at h
  simp only [Bool.or_eq_true, decide_eq_true_eq] at h
  rcases h with (((((h | h) | h) | h) | h) | h) <;> subst h <;> decide

theorem digit_not_ws (c : Char) (h : c.isDigit = true) : jsWsChar c = false := by
  cases hw : jsWsChar c with
  | false => rfl
  | true => rw [ws_not_digit c hw] at h; exact absurd h (by simp)

theorem digit_ne_quote (c : Char) (h : c.isDigit = true) : c ≠ '"' := by
  intro hq
  subst hq
  exact absurd h (by decide)

/-- The decimal rendering of an integer starts with a digit or a minus
sign. -/
theorem intToDecString_head (i : Int) :
    ∃ c t, (intToDecString i).data = c :: t ∧ (c.isDigit = true ∨ c = '-') := by
  unfold intToDecString
  by_cases hi : i < 0
  · rw [if_pos hi]
    exact ⟨'-', (natToDecChars i.natAbs), rfl, Or.inr rfl⟩
  · rw [if_neg hi]
    rcases hL : natToDecChars i.natAbs with _ | ⟨c, t⟩
    · exact absurd hL (natToDecChars_ne_nil i.natAbs)
    · refine ⟨c, t, ?_, Or.inl (natToDecChars_forall_digit i.natAbs c (by rw [hL]; simp))⟩
      unfold natToDecString
      rw [hL]
      rfl

theorem intToDecString_head_facts (i : Int) :
    ∃ c t, (intToDecString i).data = c :: t ∧
      jsWsChar c = false ∧ c ≠ '"' := by
  obtain ⟨c, t, hd, hc⟩ := intToDecString_head i
  refine ⟨c, t, hd, ?_, ?_⟩
  · rcases hc with h | h
    · exact digit_not_ws c h
    · subst h; decide
  · rcases hc with h | h
    · exact digit_ne_quote c h
    · subst h; decide

theorem scanLit_int (i : Int) (rest : List Char)
    (hhd : ∀ c t, rest = c :: t → (c.isDigit = false ∧ c ≠ '.')) :
    scanLit ((intToDecString i).data ++ rest) = some (.num (i : Rat), rest) := by
  obtain ⟨c, t, hd, _, hq⟩ := intToDecString_head_facts i
  unfold scanLit
  split
  · next r heq =>
    rw [hd] at heq
    simp only [List.cons_append, List.cons.injEq] at heq
    exact absurd heq.1 hq
  · rw [scanSignedDecimal_int i rest hhd]
    rfl

theorem stripWs0_cons_not_ws (c : Char) (t : List Char) (h : jsWsChar c = false) :
    stripWs0 (c :: t) = c :: t := by
  unfold stripWs0
  simp [List.dropWhile_cons, h]

theorem scanArgsGo_comma (fuel : Nat) (cs r rest' : List Char) (lit : JsLit)
    (hf : fuel ≠ 0) (h1 : scanLit (stripWs0 cs) = some (lit, r))
    (h2 : stripWs0 r = ',' :: rest') :
    scanArgsGo fuel cs = (scanArgsGo (fuel - 1) rest').map (lit :: ·) := by
  obtain ⟨f, rfl⟩ := Nat.exists_eq_succ_of_ne_zero hf
  show (scanLit (stripWs0 cs)).bind _ = _
  rw [h1]
  show (match stripWs0 r with
        | [] => some [lit]
        | ',' :: r => (scanArgsGo f r).map (lit :: ·)
        | _ => none) = _
  rw [h2]
  rfl

theorem scanArgsGo_last (fuel : Nat) (cs r : List Char) (lit : JsLit)
    (hf : fuel ≠ 0) (h1 : scanLit (stripWs0 cs) = some (lit, r))
    (h2 : stripWs0 r = []) :
    scanArgsGo fuel cs = some [lit] := by
  obtain ⟨f, rfl⟩ := Nat.exists_eq_succ_of_ne_zero hf
  show (scanLit (stripWs0 cs)).bind _ = _
  rw [h1]
  show (match stripWs0 r with
        | [] => some [lit]
        | ',' :: r => (scanArgsGo f r).map (lit :: ·)
        | _ => none) = _
  rw [h2]

theorem scanArgs_two_ints (i j : Int) :
    scanArgs ((intToDecString i).data ++ ',' :: ' ' :: (intToDecString j).data) =
      some [.num (i : Rat), .num (j : Rat)] := by
  obtain ⟨c1, t1, hd1, hw1, _⟩ := intToDecString_head_facts i
  obtain ⟨c2, t2, hd2, hw2, _⟩ := intToDecString_head_facts j
  have hs0 : stripWs0 ((intToDecString i).data ++ ',' :: ' ' :: (intToDecString j).data) =
      (intToDecString i).data ++ ',' :: ' ' :: (intToDecString j).data := by
    rw [hd1, List.cons_append]
    exact stripWs0_cons_not_ws c1 _ hw1
  have hne : (intToDecString i).data ++ ',' :: ' ' :: (intToDecString j).data ≠ [] := by
    rw [hd1]; simp
  have hs2 : stripWs0 (' ' :: (intToDecString j).data) = (intToDecString j).data := by
    unfold stripWs0
    rw [List.dropWhile_cons]
    simp only [show jsWsChar ' ' = true by decide, if_true]
    rw [hd2, List.dropWhile_cons]
    simp [hw2]
  have h1 : scanLit (stripWs0 ((intToDecString i).data ++
      ',' :: ' ' :: (intToDecString j).data)) = some (.num (i : Rat),
        ',' :: ' ' :: (intToDecString j).data) := by
    rw [hs0]
    exact scanLit_int i (',' :: ' ' :: (intToDecString j).data)
      (by intro c t heq; rw [List.cons.injEq] at heq; rw [← heq.1]
          exact ⟨by decide, by decide⟩)
  have h2 : stripWs0 (',' :: ' ' :: (intToDecString j).data) =
      ',' :: (' ' :: (intToDecString j).data) :=
    stripWs0_cons_not_ws ',' _ (by decide)
  have h1' : scanLit (stripWs0 (' ' :: (intToDecString j).data)) =
      some (.num (j : Rat), []) := by
    rw [hs2, show (intToDecString j).data = (intToDecString j).data ++ [] by
      rw [List.append_nil]]
    exact scanLit_int j [] (by intro c t heq; exact absurd heq (by simp))
  unfold scanArgs
  rw [hs0, if_neg hne]
  rw [scanArgsGo_comma _ _ _ _ _ (by omega) (by rw [hs0] at h1; rw [hs0]; exact h1) h2]
  rw [scanArgsGo_last _ _ _ _ (by
    rw [hd1]
    simp only [List.cons_append, List.length_cons]
    omega) h1' (by rfl)]
  rfl

theorem applyMath_add (x y : Rat) :
    applyMath "add" [some (.num x), some (.num y)] = some (.num (x + y)) := rfl

theorem jsTrimList_eq_self (cs : List Char)
    (hhd : ∀ c t, cs = c :: t → jsWsChar c = false)
    (hlast : ∀ c, cs.getLast? = some c → jsWsChar c = false) :
    jsTrimList cs = cs := by
  unfold jsTrimList
  have h1 : cs.dropWhile jsWsChar = cs := by
    cases cs with
    | nil => rfl
    | cons c t => simp [List.dropWhile_cons, hhd c t rfl]
  rw [h1]
  have h2 : cs.reverse.dropWhile jsWsChar = cs.reverse := by
    cases hr : cs.reverse with
    | nil => rfl
    | cons c t =>
      have hlc : cs.getLast? = some c := by
        rw [List.getLast?_eq_head?_reverse, hr]
        rfl
      simp [List.dropWhile_cons, hlast c hlc]
  rw [h2, List.reverse_reverse]

theorem scanLit_head_none (c : Char) (T : List Char) (hq : c ≠ '"')
    (hd : c.isDigit = false) (hm : c ≠ '-') (hp : c ≠ '+') (hdot : c ≠ '.') :
    scanLit (c :: T) = none := by
  have hsd : scanSignedDecimal (c :: T) = none := by
    unfold scanSignedDecimal
    split
    · next heq => rw [List.cons.injEq] at heq; exact absurd heq.1 hm
    · next heq => rw [List.cons.injEq] at heq; exact absurd heq.1 hp
    · unfold scanDecimal
      dsimp only
      have ht : (c :: T).takeWhile Char.isDigit = [] := by
        simp [List.takeWhile_cons, hd]
      have hdw : (c :: T).dropWhile Char.isDigit = c :: T := by
        simp [List.dropWhile_cons, hd]
      rw [ht, hdw]
      split
      · next r2 heq => rw [List.cons.injEq] at heq; exact absurd heq.1 hdot
      · simp
  unfold scanLit
  split
  · next r heq => rw [List.cons.injEq] at heq; exact absurd heq.1 hq
  · rw [hsd]
    rfl

theorem scanIdent_add (T : List Char) :
    scanIdent ('a' :: 'd' :: 'd' :: '(' :: T) = some ("add", '(' :: T) := by
  show (if identStartChar 'a' then
      some (('a' :: List.takeWhile identChar ('d' :: 'd' :: '(' :: T)).asString,
        List.dropWhile identChar ('d' :: 'd' :: '(' :: T))
    else none) = _
  rw [if_pos (by decide)]
  have ht : List.takeWhile identChar ('d' :: 'd' :: '(' :: T) = ['d', 'd'] := by
    simp [List.takeWhile_cons, show identChar 'd' = true by decide,
      show identChar '(' = false by decide]
  have hdw : List.dropWhile identChar ('d' :: 'd' :: '(' :: T) = '(' :: T := by
    simp [List.dropWhile_cons, show identChar 'd' = true by decide,
      show identChar '(' = false by decide]
  rw [ht, hdw]
  rw [show (['a', 'd', 'd'].asString) = "add" by decide]

theorem evalJsExpr_add_int (i j : Int) :
    evalJsExpr ("add(" ++ intToDecString i ++ ", " ++ intToDecString j ++ ")") =
      some (some (.num ((i : Rat) + (j : Rat)))) := by
  have hdata : ("add(" ++ intToDecString i ++ ", " ++ intToDecString j ++ ")").data =
      'a' :: 'd' :: 'd' :: '(' ::
        (((intToDecString i).data ++ ',' :: ' ' :: (intToDecString j).data) ++ [')']) := by
    simp [String.data_append]
  have htrim : jsTrimList ("add(" ++ intToDecString i ++ ", " ++
      intToDecString j ++ ")").data = ("add(" ++ intToDecString i ++ ", " ++
      intToDecString j ++ ")").data := by
    apply jsTrimList_eq_self
    · intro c t heq
      rw [hdata, List.cons.injEq] at heq
      rw [← heq.1]
      decide
    · intro c hc
      rw [hdata] at hc
      have : ('a' :: 'd' :: 'd' :: '(' ::
          (((intToDecString i).data ++ ',' :: ' ' :: (intToDecString j).data) ++ [')'])) =
          ('a' :: 'd' :: 'd' :: '(' ::
            ((intToDecString i).data ++ ',' :: ' ' :: (intToDecString j).data)) ++ [')'] := by
        simp
      rw [this, List.getLast?_concat] at hc
      rw [← Option.some.inj hc]
      decide
  have hlit : scanLit ("add(" ++ intToDecString i ++ ", " ++
      intToDecString j ++ ")").data = none := by
    rw [hdata]
    exact scanLit_head_none 'a' _ (by decide) (by decide) (by decide) (by decide) (by decide)
  have hident : scanIdent ("add(" ++ intToDecString i ++ ", " ++
      intToDecString j ++ ")").data = some ("add",
        '(' :: (((intToDecString i).data ++ ',' :: ' ' :: (intToDecString j).data) ++ [')'])) := by
    rw [hdata]
    exact scanIdent_add _
  unfold evalJsExpr
  dsimp only
  rw [htrim]
  rw [if_neg (by rw [hdata]; simp)]
  split
  · next l heq =>
    rw [hlit] at heq
    exact absurd heq (by simp)
  · split
    · next name inner1 heq =>
      rw [hident] at heq
      rw [Option.some.injEq, Prod.mk.injEq, List.cons.injEq] at heq
      obtain ⟨hname, _, hinner⟩ := heq
      subst hname
      rw [← hinner]
      rw [if_pos ⟨by simp, by rw [List.getLast?_concat]⟩]
      rw [List.dropLast_concat]
      rw [scanArgs_two_ints i j]
      show (match applyMath "add" ([JsLit.num (i : Rat),
        JsLit.num (j : Rat)].map (fun l => some (litVal l))) with
        | some v => some (some v)
        | none => none) = _
      rw [show ([JsLit.num (i : Rat), JsLit.num (j : Rat)].map
        (fun l => some (litVal l))) = [some (.num (i : Rat)), some (.num (j : Rat))] from rfl]
      rw [applyMath_add]
    · next hne =>
      exact absurd hident (by
        intro hcontra
        exact hne "add" _ hcontra)

theorem evaluateMath_add (a b : String) (va vb : Int) (st : RtState)
    (ha : jsTrim a = a) (hb : jsTrim b = b)
    (hane : a.data ≠ []) (hanb : ∀ ch ∈ a.data, ch ≠ '}')
    (hbne : b.data ≠ []) (hbnb : ∀ ch ∈ b.data, ch ≠ '}')
    (hga : getNested st.context a = some (.num (va : Rat)))
    (hgb : getNested st.context b = some (.num (vb : Rat))) :
    evaluateMath ("add(\x7b" ++ a ++ "\x7d, \x7b" ++ b ++ "\x7d)") st =
      (st, some (.num ((va : Rat) + (vb : Rat)))) := by
  unfold evaluateMath
  dsimp only
  rw [interpolateMath_add a b st.context hane hanb hbne hbnb,
    mathSubst_num st.context a va ha hga, mathSubst_num st.context b vb hb hgb,
    evalJsExpr_add_int va vb]

/-- The end-to-end scenario of the claim, under the current kernel. -/
def c3src : String :=
  "Workflow \"T\" with x, y\nStep 1: Add \x7bx\x7d and \x7by\x7d Save as sum\nReturn sum"

def c3inputs : Ctx := [("x", some (.num 2)), ("y", some (.num 3))]

/-- **C3** counterexample: the spec's end-to-end scenario — `Add \x7bx\x7d
and \x7by\x7d Save as sum` with inputs `x = 2`, `y = 3` and an empty resolver
chain — returns `\x7bsum: undefined\x7d`, not `\x7bsum: 5\x7d` (the current
parser turns the sentence into an action step whose resolver chain is
empty; there are indeed zero policy violations). -/
theorem add_sentence_e2e_counterexample :
    (executeWorkflow (parse2 c3src) c3inputs .noResolver).2 = .ok [("sum", none)] ∧
      (executeWorkflow (parse2 c3src) c3inputs .noResolver).1.disallowedAttempts = [] ∧
      (Except.ok [("sum", (none : Option Value))] :
          Except RtErr (List (String × Option Value))) ≠
        .ok [("sum", some (.num 5))] := by
  refine ⟨?_, ?_, ?_⟩ <;> decide

/-- **C3** (amended): the arithmetic sentence computes the numeric sum
only through the `calculate` step form of the math-sentence parser
revision: executing `.calculate "add(\x7ba\x7d, \x7bb\x7d)" (Save as c)` over any
context holding integer values `va`, `vb` at `a`, `b` stores their exact
sum at `c`, touching neither warnings nor the disallowed-attempts log.
(Under the current kernel the same sentence becomes an action step and
the spec's end-to-end scenario yields `undefined`, per the
counterexample.) -/
theorem add_sentence_sum (a b c : String) (va vb : Int) (ar : AgentResolver)
    (st : RtState)
    (ha : jsTrim a = a) (hb : jsTrim b = b)
    (hane : a.data ≠ []) (hanb : ∀ ch ∈ a.data, ch ≠ '}')
    (hbne : b.data ≠ []) (hbnb : ∀ ch ∈ b.data, ch ≠ '}')
    (hga : getNested st.context a = some (.num (va : Rat)))
    (hgb : getNested st.context b = some (.num (vb : Rat)))
    (hc : c ≠ "") :
    ∃ st', executeStep (.calculate ("add(\x7b" ++ a ++ "\x7d, \x7b" ++ b ++ "\x7d)")
        (some c)) ar st = (st', .ok ()) ∧
      ctxGet st'.context c = some (some (.num ((va : Rat) + (vb : Rat)))) ∧
      st'.warnings = st.warnings ∧
      st'.disallowedAttempts = st.disallowedAttempts := by
  refine ⟨saveIf (some c) (some (.num ((va : Rat) + (vb : Rat)))) st, ?_, ?_, ?_, ?_⟩
  · unfold executeStep
    dsimp only
    rw [evaluateMath_add a b va vb st ha hb hane hanb hbne hbnb hga hgb]
  · unfold saveIf
    dsimp only
    rw [if_pos hc]
    exact ctxGet_set_self st.context c _
  · unfold saveIf
    dsimp only
    rw [if_pos hc]
  · unfold saveIf
    dsimp only
    rw [if_pos hc]

/-- Concrete instantiation of `add_sentence_sum`: `Add \x7bx\x7d and \x7by\x7d
Save as sum` over a context with `x = 2`, `y = 3` stores `5` at `sum`. -/
theorem add_sentence_sum_witness :
    ∃ st', executeStep (.calculate "add(\x7bx\x7d, \x7by\x7d)" (some "sum")) .noResolver
        { context := [("x", some (.num 2)), ("y", some (.num 3))],
          allowedResolvers := [], warnings := [], disallowedAttempts := [] } =
        (st', .ok ()) ∧
      ctxGet st'.context "sum" = some (some (.num (((2 : Int) : Rat) + ((3 : Int) : Rat)))) ∧
      st'.warnings = [] ∧
      st'.disallowedAttempts = [] :=
  add_sentence_sum "x" "y" "sum" 2 3 .noResolver
    { context := [("x", some (.num 2)), ("y", some (.num 3))],
      allowedResolvers := [], warnings := [], disallowedAttempts := [] }
    (by decide) (by decide) (by decide) (by decide) (by decide) (by decide)
    (by decide) (by decide) (by decide)

end OLang
